import Mathlib

/-!
Verification development for the pending-notification reconciliation engine:
a shallow embedding of `bot/runner_pkg/timeutil.py`, `bot/runner_pkg/pending.py`
and `bot/runner_pkg/webhook_client.py`, together with theorems about the
behaviour the specification describes.

Modelling conventions:
- Python floats are modelled as exact rationals (`Q`, an unnormalised
  numerator/denominator pair with positive denominator); no claim here depends
  on IEEE rounding.
- Python values (entries of the persisted state, match data blobs) are
  modelled by the inductive `PyVal`; Python dicts are association lists that
  keep insertion order, as CPython dicts do.
- Wall-clock (`time.time`) and monotonic (`time.monotonic`) readings are
  explicit parameters; `time.sleep(d)` advances the modelled monotonic clock
  by exactly `d` (the uniformly-random additions to courtesy sleeps are
  modelled by their lower bound, which no claim depends on).
- Network responses (`requests.post` / `requests.patch`) are consumed from an
  explicit list; an empty list models the request raising an exception.
-/

set_option maxRecDepth 100000

/-- Exact rational numbers with a positive, not necessarily reduced,
denominator.  This models Python floats; all operations used by the embedded
code are exact on the values the claims mention. -/
structure Q where
  num : Int
  den : Int
deriving DecidableEq

/-- Embed an integer. -/
def Q.ofInt (n : Int) : Q := ⟨n, 1⟩

/-- Addition. -/
def Q.add (a b : Q) : Q := ⟨a.num * b.den + b.num * a.den, a.den * b.den⟩

/-- Subtraction. -/
def Q.sub (a b : Q) : Q := ⟨a.num * b.den - b.num * a.den, a.den * b.den⟩

/-- Multiplication. -/
def Q.mul (a b : Q) : Q := ⟨a.num * b.num, a.den * b.den⟩

/-- Division by a positive integer constant (used for the `/ 1000` unit fix). -/
def Q.divPos (a : Q) (k : Int) : Q := ⟨a.num, a.den * k⟩

/-- Comparison `a <= b`, by cross multiplication (denominators positive). -/
def Q.le (a b : Q) : Bool := a.num * b.den ≤ b.num * a.den

/-- Comparison `a < b`; for the modelled values this is the exact complement
of `Q.le b a`, as it is for Python floats without NaN. -/
def Q.lt (a b : Q) : Bool := ¬ Q.le b a

/-- Python `max(a, b)`: returns `b` only when it is strictly greater. -/
def Q.max (a b : Q) : Q := if Q.lt a b then b else a

/-- Python `min(a, b)`: returns `b` only when it is strictly smaller. -/
def Q.min (a b : Q) : Q := if Q.lt b a then b else a

/-- Python `int(float)`: truncation toward zero. -/
def Q.trunc (a : Q) : Int := a.num.tdiv a.den

/-- Value-level equality (Python `==` on numbers). -/
def Q.eqv (a b : Q) : Bool := a.num * b.den = b.num * a.den

/-- A model of Python values as they occur in the persisted state and in
match-data blobs: `None`, booleans, ints, floats, strings, lists and dicts.
Dicts keep insertion order, as CPython dicts do. -/
inductive PyVal where
  | vNone
  | vBool (b : Bool)
  | vInt (n : Int)
  | vFloat (q : Q)
  | vStr (s : String)
  | vList (xs : List PyVal)
  | vDict (kvs : List (String × PyVal))

mutual

/-- Structural boolean equality on `PyVal`, used to build `DecidableEq`. -/
def PyVal.beq : PyVal → PyVal → Bool
  | .vNone, .vNone => true
  | .vBool a, .vBool b => a == b
  | .vInt a, .vInt b => a == b
  | .vFloat a, .vFloat b => a == b
  | .vStr a, .vStr b => a == b
  | .vList xs, .vList ys => PyVal.beqList xs ys
  | .vDict xs, .vDict ys => PyVal.beqFields xs ys
  | _, _ => false

/-- Structural boolean equality on lists of `PyVal`. -/
def PyVal.beqList : List PyVal → List PyVal → Bool
  | [], [] => true
  | a :: as, b :: bs => PyVal.beq a b && PyVal.beqList as bs
  | _, _ => false

/-- Structural boolean equality on dict fields. -/
def PyVal.beqFields : List (String × PyVal) → List (String × PyVal) → Bool
  | [], [] => true
  | (k, a) :: as, (l, b) :: bs => k == l && PyVal.beq a b && PyVal.beqFields as bs
  | _, _ => false

end

mutual

theorem PyVal.beq_iff : ∀ a b : PyVal, PyVal.beq a b = true ↔ a = b
  | .vNone, .vNone => by simp [PyVal.beq]
  | .vBool _, .vBool _ => by simp [PyVal.beq]
  | .vInt _, .vInt _ => by simp [PyVal.beq]
  | .vFloat _, .vFloat _ => by simp [PyVal.beq]
  | .vStr _, .vStr _ => by simp [PyVal.beq]
  | .vList xs, .vList ys => by simp [PyVal.beq, PyVal.beqList_iff xs ys]
  | .vDict xs, .vDict ys => by simp [PyVal.beq, PyVal.beqFields_iff xs ys]
  | .vNone, .vBool _ => by simp [PyVal.beq]
  | .vNone, .vInt _ => by simp [PyVal.beq]
  | .vNone, .vFloat _ => by simp [PyVal.beq]
  | .vNone, .vStr _ => by simp [PyVal.beq]
  | .vNone, .vList _ => by simp [PyVal.beq]
  | .vNone, .vDict _ => by simp [PyVal.beq]
  | .vBool _, .vNone => by simp [PyVal.beq]
  | .vBool _, .vInt _ => by simp [PyVal.beq]
  | .vBool _, .vFloat _ => by simp [PyVal.beq]
  | .vBool _, .vStr _ => by simp [PyVal.beq]
  | .vBool _, .vList _ => by simp [PyVal.beq]
  | .vBool _, .vDict _ => by simp [PyVal.beq]
  | .vInt _, .vNone => by simp [PyVal.beq]
  | .vInt _, .vBool _ => by simp [PyVal.beq]
  | .vInt _, .vFloat _ => by simp [PyVal.beq]
  | .vInt _, .vStr _ => by simp [PyVal.beq]
  | .vInt _, .vList _ => by simp [PyVal.beq]
  | .vInt _, .vDict _ => by simp [PyVal.beq]
  | .vFloat _, .vNone => by simp [PyVal.beq]
  | .vFloat _, .vBool _ => by simp [PyVal.beq]
  | .vFloat _, .vInt _ => by simp [PyVal.beq]
  | .vFloat _, .vStr _ => by simp [PyVal.beq]
  | .vFloat _, .vList _ => by simp [PyVal.beq]
  | .vFloat _, .vDict _ => by simp [PyVal.beq]
  | .vStr _, .vNone => by simp [PyVal.beq]
  | .vStr _, .vBool _ => by simp [PyVal.beq]
  | .vStr _, .vInt _ => by simp [PyVal.beq]
  | .vStr _, .vFloat _ => by simp [PyVal.beq]
  | .vStr _, .vList _ => by simp [PyVal.beq]
  | .vStr _, .vDict _ => by simp [PyVal.beq]
  | .vList _, .vNone => by simp [PyVal.beq]
  | .vList _, .vBool _ => by simp [PyVal.beq]
  | .vList _, .vInt _ => by simp [PyVal.beq]
  | .vList _, .vFloat _ => by simp [PyVal.beq]
  | .vList _, .vStr _ => by simp [PyVal.beq]
  | .vList _, .vDict _ => by simp [PyVal.beq]
  | .vDict _, .vNone => by simp [PyVal.beq]
  | .vDict _, .vBool _ => by simp [PyVal.beq]
  | .vDict _, .vInt _ => by simp [PyVal.beq]
  | .vDict _, .vFloat _ => by simp [PyVal.beq]
  | .vDict _, .vStr _ => by simp [PyVal.beq]
  | .vDict _, .vList _ => by simp [PyVal.beq]

theorem PyVal.beqList_iff : ∀ xs ys : List PyVal, PyVal.beqList xs ys = true ↔ xs = ys
  | [], [] => by simp [PyVal.beqList]
  | [], _ :: _ => by simp [PyVal.beqList]
  | _ :: _, [] => by simp [PyVal.beqList]
  | a :: as, b :: bs => by
    simp [PyVal.beqList, PyVal.beq_iff a b, PyVal.beqList_iff as bs]

theorem PyVal.beqFields_iff :
    ∀ xs ys : List (String × PyVal), PyVal.beqFields xs ys = true ↔ xs = ys
  | [], [] => by simp [PyVal.beqFields]
  | [], _ :: _ => by simp [PyVal.beqFields]
  | _ :: _, [] => by simp [PyVal.beqFields]
  | (k, a) :: as, (l, b) :: bs => by
    simp [PyVal.beqFields, PyVal.beq_iff a b, PyVal.beqFields_iff as bs, and_assoc]

end

instance : DecidableEq PyVal := fun a b =>
  decidable_of_iff (PyVal.beq a b = true) (PyVal.beq_iff a b)

/-- Python truthiness (`bool(x)`). -/
def PyVal.truthy : PyVal → Bool
  | .vNone => false
  | .vBool b => b
  | .vInt n => n ≠ 0
  | .vFloat q => q.num ≠ 0
  | .vStr s => s ≠ ""
  | .vList xs => ¬ xs.isEmpty
  | .vDict kvs => ¬ kvs.isEmpty

/-- Is this value a Python dict (`isinstance(x, dict)`)? -/
def PyVal.isDictV : PyVal → Bool
  | .vDict _ => true
  | _ => false

/-- First-match lookup in an ordered association list, the model of a CPython
dict keyed by strings. -/
def alookup : List (String × PyVal) → String → Option PyVal
  | [], _ => none
  | (k, v) :: rest, key => if k = key then some v else alookup rest key

/-- Python `dict.get(key)` on a dict value: `None` when absent, `None` on
non-dicts (the embedded code only calls `.get` behind `isinstance` guards). -/
def pyGet : PyVal → String → PyVal
  | .vDict kvs, key => (alookup kvs key).getD .vNone
  | _, _ => .vNone

/-- Numeric view used by Python `isinstance(x, (int, float))`; note that a
Python `bool` is an `int`. -/
def pyNumQ : PyVal → Option Q
  | .vBool b => some (Q.ofInt (if b then 1 else 0))
  | .vInt n => some (Q.ofInt n)
  | .vFloat q => some q
  | _ => none

/-- Python `==` restricted to the scalar comparisons the embedded code
performs (numbers compare by value, `True == 1`; containers are compared
structurally, which no embedded comparison exercises). -/
def pyEq (a b : PyVal) : Bool :=
  match pyNumQ a, pyNumQ b with
  | some x, some y => Q.eqv x y
  | _, _ =>
    match a, b with
    | .vStr s, .vStr t => s = t
    | .vNone, .vNone => true
    | x, y => PyVal.beq x y

/-- Characters of a string; all custom string helpers below work on this
code-point list, mirroring what the Python `str` operations do on the strings
the embedded code handles. -/
def strChars (s : String) : List Char := s.data

/-- Python `str.strip()` (whitespace at both ends). -/
def pyStrip (s : String) : String :=
  String.mk (((strChars s).dropWhile Char.isWhitespace).reverse.dropWhile
    Char.isWhitespace |>.reverse)

/-- Python `str.isdigit()` for the ASCII strings the state contains. -/
def pyIsDigit (s : String) : Bool :=
  s ≠ "" && (strChars s).all Char.isDigit

/-- Python `":" in key`. -/
def hasColon (s : String) : Bool := (strChars s).any (fun c => c = ':')

/-- Numeric value of an ASCII digit string. -/
def digitsToNat (cs : List Char) : Nat :=
  cs.foldl (fun acc c => 10 * acc + (c.toNat - '0'.toNat)) 0

/-- Python `int(s)` on a stripped string: optional sign, then digits. -/
def parseIntString (s : String) : Option Int :=
  match strChars (pyStrip s) with
  | [] => none
  | c :: rest =>
    if c = '-' then
      if rest ≠ [] ∧ rest.all Char.isDigit then some (-(digitsToNat rest : Int)) else none
    else if c = '+' then
      if rest ≠ [] ∧ rest.all Char.isDigit then some (digitsToNat rest : Int) else none
    else if (c :: rest).all Char.isDigit then some (digitsToNat (c :: rest) : Int)
    else none

/-- Python `int(x)` with `try/except`: `some` on success, `none` when the
conversion raises. -/
def pyToInt : PyVal → Option Int
  | .vBool b => some (if b then 1 else 0)
  | .vInt n => some n
  | .vFloat q => some q.trunc
  | .vStr s => parseIntString s
  | _ => none

/-- Python `str(x)` for the scalar values the embedded code formats into keys
(container rendering is never used for keys). -/
def pyStr : PyVal → String
  | .vNone => "None"
  | .vBool b => if b then "True" else "False"
  | .vInt n => toString n
  | .vFloat q => toString q.num ++ "/" ++ toString q.den
  | .vStr s => s
  | .vList _ => "[list]"
  | .vDict _ => "[dict]"

/-- Drop the first `.` of a string (Python `s.replace(".", "", 1)`). -/
def dropFirstDot (s : String) : String :=
  String.mk (go (strChars s))
where
  go : List Char → List Char
    | [] => []
    | c :: rest => if c = '.' then rest else c :: go rest

/-- Value of a decimal-literal string `digits[.digits]` (Python `float(s)` on
strings that pass the `replace(".", "", 1).isdigit()` check). -/
def parseDecimalString (s : String) : Q :=
  let cs := strChars s
  let intPart := cs.takeWhile (fun c => c ≠ '.')
  let rest := cs.dropWhile (fun c => c ≠ '.')
  match rest with
  | [] => Q.ofInt (digitsToNat intPart)
  | _ :: frac =>
    ⟨(digitsToNat intPart : Int) * (10 ^ frac.length : Nat) + (digitsToNat frac : Int),
      ((10 : Int) ^ frac.length)⟩

-- ---------- bot/runner_pkg/timeutil.py ----------

/-- Days between 1970-01-01 and the given civil date (proleptic Gregorian);
the standard era-based conversion used to model `datetime.timestamp()`. -/
def daysFromCivil (y m d : Int) : Int :=
  let y2 := if m ≤ 2 then y - 1 else y
  let era := (if 0 ≤ y2 then y2 else y2 - 399).tdiv 400
  let yoe := y2 - era * 400
  let mp := (m + 9) % 12
  let doy := (153 * mp + 2).tdiv 5 + d - 1
  let doe := yoe * 365 + yoe.tdiv 4 - yoe.tdiv 100 + doy
  era * 146097 + doe - 719468

/-- Parse the two-digit number at the head of a char list. -/
def twoDigits : List Char → Option (Int × List Char)
  | a :: b :: rest =>
    if a.isDigit ∧ b.isDigit then some ((digitsToNat [a, b] : Int), rest) else none
  | _ => none

/-- Parse an ISO offset suffix `+HH:MM` / `-HH:MM`; returns offset seconds. -/
def parseIsoOffset : List Char → Option Int
  | [] => some 0
  | sign :: rest =>
    if sign = '+' ∨ sign = '-' then
      match twoDigits rest with
      | some (oh, rest2) =>
        match rest2 with
        | ':' :: rest3 =>
          match twoDigits rest3 with
          | some (om, []) =>
            let secs := oh * 3600 + om * 60
            some (if sign = '-' then -secs else secs)
          | _ => none
        | _ => none
      | none => none
    else none

/-- Parse `HH:MM[:SS[.ffffff]][±HH:MM]` into seconds-since-midnight plus the
offset correction, as a rational. -/
def parseIsoTime (cs : List Char) : Option Q :=
  match twoDigits cs with
  | some (h, ':' :: rest1) =>
    (match twoDigits rest1 with
    | some (mi, rest2) =>
      if h < 24 ∧ mi < 60 then
        match rest2 with
        | [] => some (Q.ofInt (h * 3600 + mi * 60))
        | ':' :: rest3 =>
          (match twoDigits rest3 with
          | some (s, rest4) =>
            if s < 60 then
              let base := h * 3600 + mi * 60 + s
              match rest4 with
              | '.' :: rest5 =>
                let frac := rest5.takeWhile Char.isDigit
                let tail := rest5.dropWhile Char.isDigit
                if frac ≠ [] ∧ frac.length ≤ 6 then
                  match parseIsoOffset tail with
                  | some off =>
                    some (Q.add ⟨(digitsToNat frac : Int), ((10 : Int) ^ frac.length)⟩
                      (Q.ofInt (base - off)))
                  | none => none
                else none
              | tail =>
                match parseIsoOffset tail with
                | some off => some (Q.ofInt (base - off))
                | none => none
            else none
          | _ => none)
        | sign :: restOff =>
          (match parseIsoOffset (sign :: restOff) with
          | some off => some (Q.ofInt (h * 3600 + mi * 60 - off))
          | none => none)
      else none
    | none => none)
  | _ => none

/-- Model of `datetime.fromisoformat(...).timestamp()` restricted to the
canonical layouts the state contains (`YYYY-MM-DD[THH:MM[:SS[.ffffff]]][±HH:MM]`,
naive datetimes taken as UTC); every other string is unparseable. -/
def parseIsoEpoch (s : String) : Option Q :=
  match strChars s with
  | y1 :: y2 :: y3 :: y4 :: '-' :: m1 :: m2 :: '-' :: d1 :: d2 :: rest =>
    if [y1, y2, y3, y4, m1, m2, d1, d2].all Char.isDigit then
      let y := (digitsToNat [y1, y2, y3, y4] : Int)
      let mo := (digitsToNat [m1, m2] : Int)
      let da := (digitsToNat [d1, d2] : Int)
      if 1 ≤ mo ∧ mo ≤ 12 ∧ 1 ≤ da ∧ da ≤ 31 then
        let dayQ : Q := Q.ofInt (daysFromCivil y mo da * 86400)
        match rest with
        | [] => some dayQ
        | sep :: rest2 =>
          if sep = 'T' ∨ sep = ' ' then
            match parseIsoTime rest2 with
            | some t => some (Q.add dayQ t)
            | none => none
          else none
      else none
    else none
  | _ => none

/-- Python `s.endswith("Z")`. -/
def endsWithZ (s : String) : Bool :=
  match (strChars s).reverse with
  | 'Z' :: _ => true
  | _ => false

/-- Drop the final character (Python `s[:-1]`). -/
def dropLastChar (s : String) : String :=
  String.mk ((strChars s).reverse.tail.reverse)

/-- `iso_to_epoch` from `bot/runner_pkg/timeutil.py`: convert an ISO-8601
timestamp or a legacy numeric epoch to epoch seconds, returning `0.0` for
anything unparseable; never raises. -/
def iso_to_epoch (value : PyVal) : Q :=
  match pyNumQ value with
  | some q => q
  | none =>
    match value with
    | .vNone => Q.ofInt 0
    | v =>
      let s := pyStrip (pyStr v)
      if s = "" then Q.ofInt 0
      else
        let s2 := if endsWithZ s then dropLastChar s ++ "+00:00" else s
        match parseIsoEpoch s2 with
        | some q => q
        | none => Q.ofInt 0

-- ---------- bot/runner_pkg/pending.py : bounds, helpers ----------

/-- Clamp helper `max(lo, min(hi, v))`. -/
def clampInt (lo hi v : Int) : Int := max lo (min hi v)

/-- `_env_expiry_seconds`: parse `FALLBACK_EXPIRY_SEC` (raw value of the
environment variable, `""` when unset), clamped to `[300, 10800]`, defaulting
to `10800`. -/
def _env_expiry_seconds (raw : String) : Int :=
  let r := pyStrip raw
  if pyIsDigit r then clampInt 300 10800 (digitsToNat (strChars r) : Int) else 10800

/-- `_env_max_checks_per_run`: parse `PENDING_MAX_CHECKS_PER_RUN`, clamped to
`[1, 50]`, defaulting to `8`. -/
def _env_max_checks_per_run (raw : String) : Int :=
  let r := pyStrip raw
  if pyIsDigit r then clampInt 1 50 (digitsToNat (strChars r) : Int) else 8

/-- `_entry_expiry_seconds`: per-entry `expiresAfterSec` override clamped to
`[300, 10800]`, else the environment default. -/
def _entry_expiry_seconds (entry : PyVal) (envExpiryRaw : String) : Int :=
  match pyNumQ (pyGet entry "expiresAfterSec") with
  | some q => clampInt 300 10800 q.trunc
  | none => _env_expiry_seconds envExpiryRaw

/-- `_posted_at_epoch`: numeric `postedAt` is used directly, a numeric-looking
string is parsed as a decimal, other strings go through `iso_to_epoch`;
anything else yields `0.0`. -/
def _posted_at_epoch (entry : PyVal) : Q :=
  let v := pyGet entry "postedAt"
  match pyNumQ v with
  | some q => q
  | none =>
    match v with
    | .vStr s =>
      if pyStrip s ≠ "" then
        let vv := pyStrip s
        if pyIsDigit (dropFirstDot vv) then parseDecimalString vv
        else iso_to_epoch (.vStr vv)
      else Q.ofInt 0
    | _ => Q.ofInt 0

/-- `_recheck_window`: per-entry `recheckWindowSec` override clamped to
`[60, 3600]`, else the default `300`. -/
def _recheck_window (entry : PyVal) : Int :=
  match pyNumQ (pyGet entry "recheckWindowSec") with
  | some q => clampInt 60 3600 q.trunc
  | none => 300

/-- `_stable_jitter_seconds`: the current policy is fixed cadence, so the
deterministic jitter is always `0`. -/
def _stable_jitter_seconds (stableKey : String) : Int :=
  let _ := stableKey
  0

/-- `_should_recheck_now`: an entry with no (or falsy) `lastCheckedAt` is due
immediately; otherwise it is due once `now - lastCheckedAt` reaches
`max(5.0, window + jitter)`. -/
def _should_recheck_now (entry : PyVal) (stableKey : String) (nowEpoch : Q) : Bool :=
  let lastChecked := pyGet entry "lastCheckedAt"
  let window := _recheck_window entry
  let jitter := _stable_jitter_seconds stableKey
  if ¬ lastChecked.truthy then true
  else
    let lastEpoch := iso_to_epoch lastChecked
    Q.le (Q.max (Q.ofInt 5) (Q.ofInt (window + jitter))) (Q.sub nowEpoch lastEpoch)

-- ---------- bot/runner_pkg/pending.py : _normalize_pending_map ----------

/-- Remove the first pair with the given key (`dict.pop(k, None)`). -/
def apop : List (String × PyVal) → String → List (String × PyVal)
  | [], _ => []
  | (k, v) :: rest, key => if k = key then rest else (k, v) :: apop rest key

/-- Replace the value at a key in place, else append (`dict[k] = v`). -/
def aset : List (String × PyVal) → String → PyVal → List (String × PyVal)
  | [], key, val => [(key, val)]
  | (k, v) :: rest, key, val =>
    if k = key then (k, val) :: rest else (k, v) :: aset rest key val

/-- Python `dict.update(other)` for an ordered association list. -/
def aupdate (m adds : List (String × PyVal)) : List (String × PyVal) :=
  adds.foldl (fun acc kv => aset acc kv.1 kv.2) m

/-- Key-membership test (`key in dict`). -/
def ahas (m : List (String × PyVal)) (key : String) : Bool :=
  (alookup m key).isSome

/-- One iteration of the `_normalize_pending_map` scan: given the snapshot `S`
of the map (membership checks read the live dict, which is not mutated until
after the loop), fold the pending deletions and additions. -/
def normScanStep (S : List (String × PyVal))
    (acc : List String × List (String × PyVal)) (kv : String × PyVal) :
    List String × List (String × PyVal) :=
  let dels := acc.1
  let adds := acc.2
  let key := kv.1
  let val := kv.2
  if ¬ val.isDictV then (dels ++ [key], adds)
  else
    let matchIdFalsy := ¬ (pyGet val "matchId").truthy ∧ key = ""
    if matchIdFalsy ∨ pyGet val "steamId" = PyVal.vNone then (dels ++ [key], adds)
    else if ¬ hasColon key ∧ pyIsDigit key then
      match pyToInt (pyGet val "steamId") with
      | some steam =>
        let newKey := toString (digitsToNat (strChars key) : Int) ++ ":" ++ toString steam
        if ¬ ahas S newKey ∧ ¬ ahas adds newKey then
          (dels ++ [key], adds ++ [(newKey, val)])
        else (dels, adds)
      | none => (dels, adds)
    else (dels, adds)

/-- `_normalize_pending_map`: drop non-dict and corrupt entries, migrate
legacy bare-match-id keys to composite `"<matchId>:<steamId>"` form when the
composite key is free; deletions and additions are applied after the scan. -/
def _normalize_pending_map (S : List (String × PyVal)) : List (String × PyVal) :=
  let scanned := S.foldl (normScanStep S) ([], [])
  aupdate (scanned.1.foldl apop S) scanned.2


-- ---------- bot/runner_pkg/webhook_client.py ----------

/-- The Phase 4 outcome taxonomy of the delivery client. -/
inductive OutCode where
  | ok
  | rate_limited
  | hard_block
  | not_found
  | other_error
deriving DecidableEq

/-- The parts of an HTTP response the embedded client inspects: the status
code, the parsed `retry_after` number from the JSON body (`none` when the body
has no parseable `retry_after`), whether the lowercased body text contains
both `"cloudflare"` and `"error 1015"`, and the message id in the body of a
`?wait=true` create response (`none` when absent/unparseable). -/
structure HttpResp where
  status : Nat
  retryAfterBody : Option Q
  cfText : Bool
  bodyMsgId : Option String
deriving DecidableEq

/-- The process-wide mutable state of `webhook_client`: the permanent
hard-block flag, the global cooldown deadline, and the modelled monotonic
clock (`time.monotonic()`), which `time.sleep` advances. -/
structure WState where
  hardBlocked : Bool
  cooldownUntil : Q
  clock : Q
deriving DecidableEq

/-- `_set_webhook_cooldown`: extend the global cooldown deadline, never
shrinking it. -/
def _set_webhook_cooldown (w : WState) (seconds : Q) : WState :=
  { w with
    cooldownUntil := Q.max w.cooldownUntil (Q.add w.clock (Q.max (Q.ofInt 0) seconds)) }

/-- `_webhook_cooldown_active`. -/
def _webhook_cooldown_active (w : WState) : Bool := Q.lt w.clock w.cooldownUntil

/-- `webhook_cooldown_remaining`. -/
def webhook_cooldown_remaining (w : WState) : Q :=
  Q.max (Q.ofInt 0) (Q.sub w.cooldownUntil w.clock)

/-- `is_hard_blocked`. -/
def is_hard_blocked (w : WState) : Bool := w.hardBlocked

/-- `webhook_cooldown_active` (runner-facing alias). -/
def webhook_cooldown_active (w : WState) : Bool := _webhook_cooldown_active w

/-- `time.sleep(d)` advances the modelled monotonic clock. -/
def wsleep (w : WState) (d : Q) : WState := { w with clock := Q.add w.clock d }

/-- `_parse_retry_after`: defensively normalise units (magnitude heuristics for
milliseconds) and clamp to `[0.5, 60]`; `2.0` when the body has none. -/
def _parse_retry_after (r : HttpResp) : Q :=
  match r.retryAfterBody with
  | some v =>
    let v1 :=
      if Q.lt (Q.ofInt 60) v then Q.divPos v 1000
      else if Q.lt (Q.ofInt 0) v ∧ Q.lt v ⟨1, 5⟩ then Q.mul v (Q.ofInt 1000)
      else v
    Q.max ⟨1, 2⟩ (Q.min v1 (Q.ofInt 60))
  | none => Q.ofInt 2

/-- `_looks_like_cloudflare_1015`: status 429 with the CF 1015 body signature. -/
def _looks_like_cloudflare_1015 (r : HttpResp) : Bool :=
  r.status = 429 ∧ r.cfText

/-- `_is_party_or_duel_embed`, deterministic routing on the embed title. -/
def _is_party_or_duel_embed (title : String) : Bool :=
  if title = "" then false
  else if title.startsWith "⏳ Party (Pending Stats)" then true
  else if title.startsWith "👥 Party Match" then true
  else if title = "⚔️ Guild Duel Detected" then true
  else false

/-- The configuration the delivery client and the pending pass read: the
`DEBUG_MODE` level, the resolved environment webhooks, `CONFIG` fields, the
raw expiry/budget environment variables, and the pass's wall-clock readings
(`time.time()` at pass start and the `now_iso()` string recorded into
`lastCheckedAt`, constant across one pass in this model). -/
structure Cfg where
  debugLevel : Int
  envWebhookDebug : String
  defaultWebhookUrl : Option String
  partyDebugWebhook : String
  configWebhookUrl : PyVal
  playersKeys : List String
  discordIds : List (String × String)
  envExpiryRaw : String
  envMaxChecksRaw : String
  nowEpoch : Q
  nowIsoStr : String

/-- `_ensure_webhook_url`: debug override first, then the explicit argument,
then the process default. -/
def _ensure_webhook_url (cfg : Cfg) (url : Option String) : Option String :=
  if cfg.debugLevel > 0 ∧ pyStrip cfg.envWebhookDebug ≠ "" then
    some (pyStrip cfg.envWebhookDebug)
  else
    match url with
    | some u =>
      if u ≠ "" ∧ pyStrip u ≠ "" then some (pyStrip u)
      else
        match cfg.defaultWebhookUrl with
        | some d => if d = "" then none else some (pyStrip d)
        | none => none
    | none =>
      match cfg.defaultWebhookUrl with
      | some d => if d = "" then none else some (pyStrip d)
      | none => none

/-- Party/duel routing shared by the create and edit paths: in prod
(`DEBUG_MODE == 0`), party/duel embeds go to the dedicated debug webhook
when one is configured. -/
def routeWebhook (cfg : Cfg) (embedTitle : String) (url : Option String) : Option String :=
  if cfg.debugLevel = 0 ∧ _is_party_or_duel_embed embedTitle then
    if pyStrip cfg.partyDebugWebhook ≠ "" then some (pyStrip cfg.partyDebugWebhook) else url
  else url

/-- Structured outcome of `post_to_discord_embed`, plus the number of HTTP
requests the call actually issued (model bookkeeping for the no-network
claims). -/
structure PostRet where
  ok : Bool
  msgId : Option String
  code : OutCode
  backoff : Q
  requests : Nat
deriving DecidableEq

/-- Structured outcome of `edit_discord_message`, plus the number of HTTP
requests the call actually issued. -/
structure EditRet where
  ok : Bool
  code : OutCode
  backoff : Q
  requests : Nat
deriving DecidableEq

/-- Handle a success body on the create path: extract the message id only
when the caller asked for one; treat an asked-for-but-missing id as
`other_error`. -/
def postSuccess (w : WState) (r : HttpResp) (wantMessageId : Bool) (reqs : Nat) :
    WState × PostRet :=
  if wantMessageId ∧ r.bodyMsgId = none then
    (w, ⟨false, none, .other_error, Q.ofInt 0, reqs⟩)
  else
    (wsleep w ⟨11, 10⟩,
      ⟨true, if wantMessageId then r.bodyMsgId else none, .ok, Q.ofInt 0, reqs⟩)

/-- `post_to_discord_embed` (structured view): one create call against the
messaging endpoint, with global-cooldown short-circuit, 429 retry-once
handling, and Cloudflare 1015 hard-block detection.  `resps` is the list of
HTTP responses the network yields for this call's requests; an empty list at a
request point models the request raising (classified `other_error`). -/
def post_to_discord_embed (cfg : Cfg) (w : WState) (embedTitle : String)
    (webhook_url : Option String) (wantMessageId : Bool) (resps : List HttpResp) :
    WState × PostRet :=
  match _ensure_webhook_url cfg (routeWebhook cfg embedTitle webhook_url) with
  | none => (w, ⟨false, none, .other_error, Q.ofInt 0, 0⟩)
  | some _ =>
    if _webhook_cooldown_active w then
      (w, ⟨false, none, .rate_limited, webhook_cooldown_remaining w, 0⟩)
    else
      match resps with
      | [] => (w, ⟨false, none, .other_error, Q.ofInt 0, 1⟩)
      | r :: rest =>
        if r.status = 200 ∨ r.status = 204 then postSuccess w r wantMessageId 1
        else if r.status = 429 then
          let backoff := _parse_retry_after r
          let w1 := if Q.lt (Q.ofInt 10) backoff then _set_webhook_cooldown w backoff else w
          let w2 := wsleep w1 backoff
          match rest with
          | [] => (w2, ⟨false, none, .other_error, Q.ofInt 0, 2⟩)
          | rr :: _ =>
            if rr.status = 200 ∨ rr.status = 204 then postSuccess w2 rr wantMessageId 2
            else if _looks_like_cloudflare_1015 rr then
              ({ w2 with hardBlocked := true },
                ⟨false, none, .hard_block, Q.max (Q.ofInt 15) backoff, 2⟩)
            else if rr.status = 429 then
              let rb := _parse_retry_after rr
              (w2, ⟨false, none, .rate_limited, Q.max backoff rb, 2⟩)
            else (w2, ⟨false, none, .other_error, Q.ofInt 0, 2⟩)
        else if (r.status = 403 ∨ r.status = 429) ∧ _looks_like_cloudflare_1015 r then
          ({ w with hardBlocked := true }, ⟨false, none, .hard_block, Q.ofInt 30, 1⟩)
        else (w, ⟨false, none, .other_error, Q.ofInt 0, 1⟩)

/-- `edit_discord_message` (structured view): one edit call, with
global-cooldown short-circuit, 404/410 classified `not_found`, and 429
handling that escalates to the global cooldown (without a local retry) when
the parsed backoff exceeds 10 seconds. -/
def edit_discord_message (cfg : Cfg) (w : WState) (messageId : PyVal)
    (embedTitle : String) (webhook_url : Option String) (resps : List HttpResp) :
    WState × EditRet :=
  let _ := messageId
  match _ensure_webhook_url cfg (routeWebhook cfg embedTitle webhook_url) with
  | none => (w, ⟨false, .other_error, Q.ofInt 0, 0⟩)
  | some _ =>
    if _webhook_cooldown_active w then
      (w, ⟨false, .rate_limited, webhook_cooldown_remaining w, 0⟩)
    else
      match resps with
      | [] => (w, ⟨false, .other_error, Q.ofInt 0, 1⟩)
      | r :: rest =>
        if r.status = 200 ∨ r.status = 204 then
          (wsleep w ⟨13, 20⟩, ⟨true, .ok, Q.ofInt 0, 1⟩)
        else if r.status = 404 ∨ r.status = 410 then
          (w, ⟨false, .not_found, Q.ofInt 0, 1⟩)
        else if r.status = 429 then
          let backoff := _parse_retry_after r
          if Q.lt (Q.ofInt 10) backoff then
            (_set_webhook_cooldown w backoff, ⟨false, .rate_limited, backoff, 1⟩)
          else
            let w2 := wsleep w backoff
            match rest with
            | [] => (w2, ⟨false, .other_error, Q.ofInt 0, 2⟩)
            | rr :: _ =>
              if rr.status = 200 ∨ rr.status = 204 then (w2, ⟨true, .ok, Q.ofInt 0, 2⟩)
              else if rr.status = 404 ∨ rr.status = 410 then
                (w2, ⟨false, .not_found, Q.ofInt 0, 2⟩)
              else if _looks_like_cloudflare_1015 rr then
                ({ w2 with hardBlocked := true },
                  ⟨false, .hard_block, Q.max (Q.ofInt 15) backoff, 2⟩)
              else (w2, ⟨false, .other_error, Q.ofInt 0, 2⟩)
        else if (r.status = 403 ∨ r.status = 429) ∧ _looks_like_cloudflare_1015 r then
          ({ w with hardBlocked := true }, ⟨false, .hard_block, Q.ofInt 30, 1⟩)
        else (w, ⟨false, .other_error, Q.ofInt 0, 1⟩)

-- ---------- bot/runner_pkg/pending.py : the reconciliation pass ----------

/-- Fields of a dict value (empty for non-dicts). -/
def dictFields : PyVal → List (String × PyVal)
  | .vDict kvs => kvs
  | _ => []

/-- Elements of a list value (empty for non-lists; the embedded loops only
iterate genuine lists of player records). -/
def listElems : PyVal → List PyVal
  | .vList xs => xs
  | _ => []

/-- In-place field assignment on a dict entry (`entry["lastCheckedAt"] = ...`). -/
def dictSetField (v : PyVal) (field : String) (val : PyVal) : PyVal :=
  match v with
  | .vDict kvs => .vDict (aset kvs field val)
  | other => other

/-- The webhook URL value passed to the delivery client must be a string; a
non-string value makes the client raise, which the pass's `try/except`
swallows (modelled by the callers below). -/
def urlOf : PyVal → Option String
  | .vStr s => some s
  | _ => none

/-- Python `str(key).split(":")` on the characters of a key. -/
def splitColsChars : List Char → List (List Char)
  | [] => [[]]
  | c :: rest =>
    match splitColsChars rest with
    | [] => [[]]
    | g :: gs => if c = ':' then [] :: g :: gs else (c :: g) :: gs

/-- Python `key.split(":")`. -/
def splitColon (s : String) : List String :=
  (splitColsChars (strChars s)).map String.mk

/-- Stable insertion of one keyed item into a list sorted by ascending
`_posted_at_epoch`. -/
def insertByPosted (x : String × PyVal) :
    List (String × PyVal) → List (String × PyVal)
  | [] => [x]
  | y :: ys =>
    if Q.lt (_posted_at_epoch y.2) (_posted_at_epoch x.2) then y :: insertByPosted x ys
    else x :: y :: ys

/-- Python `sorted(items, key=lambda kv: _posted_at_epoch(kv[1]))`: a stable
ascending sort by posted-at epoch. -/
def sortByPosted : List (String × PyVal) → List (String × PyVal)
  | [] => []
  | x :: xs => insertByPosted x (sortByPosted xs)

/-- The external collaborators of one pass.  `fetchO` is the stats source,
indexed by how many fetches the pass has issued so far.  Modelled from the
spec: `bot/stratz.py` is not part of the supplied sources; per §6 the contract
is `fetchFullMatch(matchId) -> MatchData | {error: "quota_exceeded"} | null`.
`editRespO` yields the HTTP responses for the pass's n-th edit call.  The
courtesy throttles (`bot/throttle.py`, also outside the supplied sources) only
sleep, and are modelled as no-ops on the observable state. -/
structure Oracle where
  fetchO : Nat → PyVal
  editRespO : Nat → List HttpResp

/-- The mutable state threaded through one reconciliation pass: the map the
current section is walking (`pending`), the whole persisted state dict, the
delivery-client globals, the shared poll counter, and bookkeeping used by the
theorems (fetch count, edit log, polled keys). -/
structure PassSt where
  pending : List (String × PyVal)
  state : List (String × PyVal)
  w : WState
  checksUsed : Int
  fetchCount : Nat
  editCount : Nat
  editLog : List (PyVal × String)
  polledKeys : List String

/-- Title of the expired-fallback embed built by `_expire_pending_snapshot`
via the (out-of-scope) formatter; player-embed titles never match the
party/duel routing patterns of `_is_party_or_duel_embed`. -/
def playerExpiredTitle : String := "fallback embed (expired)"

/-- Title of the full player embed built by the (out-of-scope) formatter on
upgrade; never matches the party/duel routing patterns. -/
def playerFullTitle : String := "full match embed"

/-- Title built by `_build_party_upgrade_embed`. -/
def partyUpgradeTitle (isRadiant : Int) : String :=
  "👥 Party Stack — " ++ (if isRadiant = 1 then "Radiant" else "Dire") ++ " (Upgraded)"

/-- Title built by `_build_party_expired_embed`. -/
def partyExpiredTitle (isRadiant : Int) : String :=
  "👥 Party Stack — " ++ (if isRadiant = 1 then "Radiant" else "Dire") ++ " (Expired)"

/-- Title built by `_build_duel_upgrade_embed`. -/
def duelUpgradeTitle : String := "⚔️ Guild Duel (Upgraded)"

/-- Title built by `_build_duel_expired_embed`. -/
def duelExpiredTitle : String := "⚔️ Guild Duel (Expired)"

/-- One edit call from inside the pass: consume the next response list, thread
the client state, count the call and record it in the edit log. -/
def doEdit (cfg : Cfg) (oracle : Oracle) (st : PassSt) (messageId : PyVal)
    (title : String) (url : String) : PassSt × EditRet :=
  let out := edit_discord_message cfg st.w messageId title (some url) (oracle.editRespO st.editCount)
  ({ st with
      w := out.1
      editCount := st.editCount + 1
      editLog := st.editLog ++ [(messageId, title)] },
    out.2)

/-- The shared edit-outcome policy of every section: `ok` and `not_found` drop
the entry and sleep, a blocked client (`_abort_if_blocked`) aborts the whole
pass, anything else leaves the entry for the next run and sleeps. -/
def afterEdit (st : PassSt) (key : String) (sleepD : Q) (ret : EditRet) : PassSt × Bool :=
  if ret.ok then
    ({ st with pending := apop st.pending key, w := wsleep st.w sleepD }, false)
  else if ret.code = .not_found then
    ({ st with pending := apop st.pending key, w := wsleep st.w sleepD }, false)
  else if is_hard_blocked st.w ∨ webhook_cooldown_active st.w then (st, true)
  else ({ st with w := wsleep st.w sleepD }, false)

/-- The expiry action shared in shape by all three sections: build the
expired embed and edit; a non-string webhook URL makes the client raise,
which the surrounding `except` swallows before the courtesy sleep. -/
def expireEdit (cfg : Cfg) (oracle : Oracle) (st : PassSt) (key : String)
    (message_id base_url : PyVal) (title : String) : PassSt × Bool :=
  match urlOf base_url with
  | none => ({ st with w := wsleep st.w ⟨3, 10⟩ }, false)
  | some u =>
    let stp := doEdit cfg oracle st message_id title u
    afterEdit stp.1 key ⟨3, 10⟩ stp.2

/-- Record one upstream poll: consume the next fetch result, bump the shared
counter and the fetch count, and stamp `lastCheckedAt` on the entry
(`entry["lastCheckedAt"] = now_iso()`, recorded regardless of outcome). -/
def recordPoll (cfg : Cfg) (oracle : Oracle) (st : PassSt) (key : String)
    (entry : PyVal) : PyVal × PassSt :=
  let data := oracle.fetchO st.fetchCount
  let entry2 := dictSetField entry "lastCheckedAt" (.vStr cfg.nowIsoStr)
  (data,
    { st with
      fetchCount := st.fetchCount + 1
      checksUsed := st.checksUsed + 1
      pending := aset st.pending key entry2
      polledKeys := st.polledKeys ++ [key] })

/-- Is the fetched blob "not ready": falsy, or a quota-exceeded marker? -/
def fetchNotReady (data : PyVal) : Bool :=
  ¬ data.truthy ∨ (data.isDictV ∧ pyEq (pyGet data "error") (.vStr "quota_exceeded"))

/-- `(data.get("players") or []) if isinstance(data, dict) else []`. -/
def playersOf (data : PyVal) : List PyVal :=
  listElems (if data.isDictV then
    (if (pyGet data "players").truthy then pyGet data "players" else .vList [])
  else .vList [])

/-- `int(steam_id)` with fallback to the raw value on conversion failure. -/
def sidIntOf (steam_id : PyVal) : PyVal :=
  match pyToInt steam_id with
  | some n => PyVal.vInt n
  | none => steam_id

/-- The player-section handling of a ready match blob: locate the subject's
record by id, and edit to the full embed when the completion score is present,
recording the subject's last-seen match on success. -/
def playerUpgrade (cfg : Cfg) (oracle : Oracle) (key : String)
    (match_id steam_id message_id base_url : PyVal) (st1 : PassSt) (data : PyVal) :
    PassSt × Bool :=
  match (playersOf data).find? (fun p => pyEq (pyGet p "steamAccountId") (sidIntOf steam_id)) with
  | none => (st1, false)
  | some player =>
    if pyGet player "imp" = PyVal.vNone then (st1, false)
    else
      match urlOf base_url with
      | none => ({ st1 with w := wsleep st1.w ⟨1, 2⟩ }, false)
      | some u =>
        let stp := doEdit cfg oracle st1 message_id playerFullTitle u
        let st3 := if stp.2.ok then
            { stp.1 with state := aset stp.1.state (pyStr steam_id) match_id }
          else stp.1
        afterEdit st3 key ⟨1, 2⟩ stp.2

/-- The budgeted upgrade attempt shared in shape by all three sections: fetch
and stamp `lastCheckedAt`, treat falsy / quota-exceeded data as "not ready
yet", and otherwise hand the blob to the section's upgrade handler. -/
def pollWith (cfg : Cfg) (oracle : Oracle) (locate : PassSt → PyVal → PassSt × Bool)
    (st : PassSt) (key : String) (entry : PyVal) : PassSt × Bool :=
  let dp := recordPoll cfg oracle st key entry
  if fetchNotReady dp.1 then ({ dp.2 with w := wsleep dp.2.w ⟨1, 5⟩ }, false)
  else locate dp.2 dp.1

/-- One player-pending entry of the pass (the body of the first loop of
`process_pending_upgrades_and_expiry`): expiry first, then recheck gating,
then the budgeted upgrade attempt. -/
def playerStep (cfg : Cfg) (oracle : Oracle) (maxChecks : Int)
    (st : PassSt) (kv : String × PyVal) : PassSt × Bool :=
  let key := kv.1
  let entry := kv.2
  if ¬ entry.isDictV then (st, false)
  else
    let match_id := pyGet entry "matchId"
    let steam_id := pyGet entry "steamId"
    let message_id := pyGet entry "messageId"
    let webhookBase := pyGet entry "webhookBase"
    let base_url := if webhookBase.truthy then webhookBase else cfg.configWebhookUrl
    if ¬ match_id.truthy ∨ ¬ steam_id.truthy ∨ ¬ message_id.truthy ∨ ¬ base_url.truthy then
      (st, false)
    else
      let entryExp := _entry_expiry_seconds entry cfg.envExpiryRaw
      let expires_after := if entryExp = 0 then _env_expiry_seconds cfg.envExpiryRaw else entryExp
      let posted := _posted_at_epoch entry
      if Q.lt (Q.ofInt 0) posted ∧ Q.le (Q.ofInt expires_after) (Q.sub cfg.nowEpoch posted) then
        expireEdit cfg oracle st key message_id base_url playerExpiredTitle
      else
        let stableKey := pyStr match_id ++ ":" ++ pyStr steam_id
        if ¬ _should_recheck_now entry stableKey cfg.nowEpoch then (st, false)
        else if st.checksUsed ≥ maxChecks then (st, false)
        else
          match pyToInt match_id with
          | none => ({ st with w := wsleep st.w ⟨1, 2⟩ }, false)
          | some _ =>
            pollWith cfg oracle
              (playerUpgrade cfg oracle key match_id steam_id message_id base_url)
              st key entry

/-- Side parsed for a party-pending entry: from the composite key
`"<matchId>:<partyId>:<isRadiant>"` when possible, else from the entry's
`isRadiant` field. -/
def partySide (key : String) (entry : PyVal) : Int :=
  let parts := splitColon key
  let lastPart := pyStrip (parts.getLastD "")
  if parts.length ≥ 3 ∧ pyIsDigit lastPart then (digitsToNat (strChars lastPart) : Int)
  else if [PyVal.vInt 1, PyVal.vBool true, PyVal.vStr "1", PyVal.vStr "true",
      PyVal.vStr "True"].any (fun t => pyEq (pyGet entry "isRadiant") t) then 1
  else 0

/-- The party-section handling of a ready match blob: locate the party
members by party id and side, and upgrade only when at least two members are
present and all have a completion score. -/
def partyUpgrade (cfg : Cfg) (oracle : Oracle) (key : String)
    (party_id message_id base_url : PyVal) (is_radiant : Int) (st1 : PassSt)
    (data : PyVal) : PassSt × Bool :=
  let members := (playersOf data).filter (fun p =>
    pyStr (if (pyGet p "partyId").truthy then pyGet p "partyId" else .vStr "")
        = pyStr party_id
      ∧ (if (pyGet p "isRadiant").truthy then (1 : Int) else 0) = is_radiant)
  if members.length < 2 then (st1, false)
  else if members.any (fun p => pyGet p "imp" = PyVal.vNone) then (st1, false)
  else
    match urlOf base_url with
    | none => ({ st1 with w := wsleep st1.w ⟨1, 2⟩ }, false)
    | some u =>
      let stp := doEdit cfg oracle st1 message_id (partyUpgradeTitle is_radiant) u
      afterEdit stp.1 key ⟨1, 2⟩ stp.2

/-- One party-pending entry of the pass (Phase 2b section). -/
def partyStep (cfg : Cfg) (oracle : Oracle) (maxChecks : Int)
    (st : PassSt) (kv : String × PyVal) : PassSt × Bool :=
  let key := kv.1
  let entry := kv.2
  if ¬ entry.isDictV then (st, false)
  else
    let match_id := pyGet entry "matchId"
    let party_id := pyGet entry "partyId"
    let message_id := pyGet entry "messageId"
    let webhookBase := pyGet entry "webhookBase"
    let base_url := if webhookBase.truthy then webhookBase else cfg.configWebhookUrl
    let is_radiant := partySide key entry
    if ¬ match_id.truthy ∨ ¬ party_id.truthy ∨ ¬ message_id.truthy ∨ ¬ base_url.truthy then
      (st, false)
    else
      let entryExp := _entry_expiry_seconds entry cfg.envExpiryRaw
      let expires_after := if entryExp = 0 then _env_expiry_seconds cfg.envExpiryRaw else entryExp
      let posted := _posted_at_epoch entry
      if Q.lt (Q.ofInt 0) posted ∧ Q.le (Q.ofInt expires_after) (Q.sub cfg.nowEpoch posted) then
        match pyToInt match_id with
        | none => ({ st with w := wsleep st.w ⟨3, 10⟩ }, false)
        | some _ => expireEdit cfg oracle st key message_id base_url (partyExpiredTitle is_radiant)
      else
        let stableKey := pyStr match_id ++ ":" ++ pyStr party_id ++ ":" ++ toString is_radiant
        if ¬ _should_recheck_now entry stableKey cfg.nowEpoch then (st, false)
        else if st.checksUsed ≥ maxChecks then (st, false)
        else
          match pyToInt match_id with
          | none => ({ st with w := wsleep st.w ⟨1, 2⟩ }, false)
          | some _ =>
            pollWith cfg oracle
              (partyUpgrade cfg oracle key party_id message_id base_url is_radiant)
              st key entry

/-- The duel-section handling of a ready match blob: collect the guild
members on each side and upgrade only when both sides are represented and all
collected members have a completion score. -/
def duelUpgrade (cfg : Cfg) (oracle : Oracle) (key : String)
    (message_id base_url : PyVal) (st1 : PassSt) (data : PyVal) : PassSt × Bool :=
  let radiant := (playersOf data).filter (fun p =>
    (pyGet p "isRadiant").truthy
      ∧ cfg.playersKeys.contains (pyStr (pyGet p "steamAccountId")))
  let dire := (playersOf data).filter (fun p =>
    ¬ (pyGet p "isRadiant").truthy
      ∧ cfg.playersKeys.contains (pyStr (pyGet p "steamAccountId")))
  if radiant.isEmpty ∨ dire.isEmpty then (st1, false)
  else if (radiant ++ dire).any (fun p => pyGet p "imp" = PyVal.vNone) then (st1, false)
  else
    match urlOf base_url with
    | none => ({ st1 with w := wsleep st1.w ⟨1, 2⟩ }, false)
    | some u =>
      let stp := doEdit cfg oracle st1 message_id duelUpgradeTitle u
      afterEdit stp.1 key ⟨1, 2⟩ stp.2

/-- One duel-pending entry of the pass (Phase 2b section). -/
def duelStep (cfg : Cfg) (oracle : Oracle) (maxChecks : Int)
    (st : PassSt) (kv : String × PyVal) : PassSt × Bool :=
  let key := kv.1
  let entry := kv.2
  if ¬ entry.isDictV then (st, false)
  else
    let match_id := if (pyGet entry "matchId").truthy then pyGet entry "matchId" else .vStr key
    let message_id := pyGet entry "messageId"
    let webhookBase := pyGet entry "webhookBase"
    let base_url := if webhookBase.truthy then webhookBase else cfg.configWebhookUrl
    if ¬ match_id.truthy ∨ ¬ message_id.truthy ∨ ¬ base_url.truthy then (st, false)
    else
      let entryExp := _entry_expiry_seconds entry cfg.envExpiryRaw
      let expires_after := if entryExp = 0 then _env_expiry_seconds cfg.envExpiryRaw else entryExp
      let posted := _posted_at_epoch entry
      if Q.lt (Q.ofInt 0) posted ∧ Q.le (Q.ofInt expires_after) (Q.sub cfg.nowEpoch posted) then
        match pyToInt match_id with
        | none => ({ st with w := wsleep st.w ⟨3, 10⟩ }, false)
        | some _ => expireEdit cfg oracle st key message_id base_url duelExpiredTitle
      else
        let stableKey := pyStr match_id ++ ":duel"
        if ¬ _should_recheck_now entry stableKey cfg.nowEpoch then (st, false)
        else if st.checksUsed ≥ maxChecks then (st, false)
        else
          match pyToInt match_id with
          | none => ({ st with w := wsleep st.w ⟨1, 2⟩ }, false)
          | some _ =>
            pollWith cfg oracle (duelUpgrade cfg oracle key message_id base_url) st key entry

/-- Walk a snapshot of sorted entries with a section's per-entry step,
stopping at the first abort (the `return False` paths of the source). -/
def runEntries (f : PassSt → (String × PyVal) → PassSt × Bool) :
    PassSt → List (String × PyVal) → PassSt × Bool
  | st, [] => (st, false)
  | st, kv :: rest =>
    let r := f st kv
    if r.2 then (r.1, true) else runEntries f r.1 rest

/-- Result of one reconciliation pass: the updated state dict, the boolean the
function returns (`false` = abort the run), the delivery-client state, and the
pass bookkeeping. -/
structure PassResult where
  state : List (String × PyVal)
  ok : Bool
  w : WState
  checksUsed : Int
  fetchCount : Nat
  editLog : List (PyVal × String)
  polledKeys : List String

/-- One of the two Phase 2b sections (party or duel pending): read the map
from the state, skip when it is not a non-empty dict, else walk its entries
oldest-first and write the walked map back into the state (the source mutates
the aliased dict in place, so the write-back happens on abort as well). -/
def runSection (step : PassSt → (String × PyVal) → PassSt × Bool)
    (st1 : PassSt) (field : String) : PassSt × Bool :=
  let raw := (alookup st1.state field).getD .vNone
  let vOr := if raw.truthy then raw else .vDict []
  match vOr with
  | .vDict pk =>
    if pk.isEmpty then (st1, false)
    else
      let run2 := runEntries step { st1 with pending := pk } (sortByPosted pk)
      ({ run2.1 with state := aset run2.1.state field (.vDict run2.1.pending) }, run2.2)
  | _ => (st1, false)

/-- Package an aborted pass: in-place mutations are visible through the state
dict exactly when the walked map aliased a dict stored in the state. -/
def abortResult (pendingAlias : Bool) (pmap : List (String × PyVal)) (st : PassSt) :
    PassResult :=
  let s1 := if pendingAlias then aset st.state "pending" (.vDict pmap) else st.state
  { state := s1, ok := false, w := st.w, checksUsed := st.checksUsed,
    fetchCount := st.fetchCount, editLog := st.editLog, polledKeys := st.polledKeys }

/-- Everything after normalization: the player walk, then the party and duel
sections, with early aborts packaged through `abortResult`. -/
def passFrom (cfg : Cfg) (oracle : Oracle) (maxChecks : Int) (pendingAlias : Bool)
    (st0 : PassSt) : PassResult :=
  let run1 := runEntries (playerStep cfg oracle maxChecks) st0 (sortByPosted st0.pending)
  if run1.2 then abortResult pendingAlias run1.1.pending run1.1
  else
    let st1 := run1.1
    let pmapDone := st1.pending
    let afterParty := runSection (partyStep cfg oracle maxChecks) st1 "partyPending"
    if afterParty.2 then abortResult pendingAlias pmapDone afterParty.1
    else
      let afterDuel := runSection (duelStep cfg oracle maxChecks) afterParty.1 "duelPending"
      if afterDuel.2 then abortResult pendingAlias pmapDone afterDuel.1
      else
        let st3 := afterDuel.1
        { state := aset st3.state "pending" (.vDict pmapDone), ok := true, w := st3.w,
          checksUsed := st3.checksUsed, fetchCount := st3.fetchCount,
          editLog := st3.editLog, polledKeys := st3.polledKeys }

/-- `process_pending_upgrades_and_expiry`: normalize the pending map, walk the
player-pending entries oldest-first (upgrade / expire / wait under one shared
poll budget), then the party-pending and duel-pending sections, and return
`false` when a hard block or active cooldown aborts the run early. -/
def process_pending_upgrades_and_expiry (cfg : Cfg) (oracle : Oracle) (w0 : WState)
    (state0 : List (String × PyVal)) : PassResult :=
  let pendingRaw := (alookup state0 "pending").getD .vNone
  let pendingOr := if pendingRaw.truthy then pendingRaw else .vDict []
  if ¬ pendingOr.isDictV then
    { state := aset state0 "pending" (.vDict []), ok := true, w := w0,
      checksUsed := 0, fetchCount := 0, editLog := [], polledKeys := [] }
  else
    let pendingAlias := pendingRaw.truthy
    let pmap := _normalize_pending_map (dictFields pendingOr)
    let maxChecks := _env_max_checks_per_run cfg.envMaxChecksRaw
    passFrom cfg oracle maxChecks pendingAlias
      { pending := pmap, state := state0, w := w0, checksUsed := 0,
        fetchCount := 0, editCount := 0, editLog := [], polledKeys := [] }

-- ---------- Helper lemmas: the shared poll counter ----------

theorem doEdit_counters (cfg : Cfg) (oracle : Oracle) (st : PassSt) (m : PyVal)
    (t u : String) :
    (doEdit cfg oracle st m t u).1.checksUsed = st.checksUsed
      ∧ (doEdit cfg oracle st m t u).1.fetchCount = st.fetchCount :=
  ⟨rfl, rfl⟩

theorem afterEdit_counters (st : PassSt) (k : String) (d : Q) (ret : EditRet) :
    (afterEdit st k d ret).1.checksUsed = st.checksUsed
      ∧ (afterEdit st k d ret).1.fetchCount = st.fetchCount := by
  unfold afterEdit
  split
  · exact ⟨rfl, rfl⟩
  · split
    · exact ⟨rfl, rfl⟩
    · split
      · exact ⟨rfl, rfl⟩
      · exact ⟨rfl, rfl⟩

theorem expireEdit_counters (cfg : Cfg) (oracle : Oracle) (st : PassSt) (key : String)
    (mid burl : PyVal) (t : String) :
    (expireEdit cfg oracle st key mid burl t).1.checksUsed = st.checksUsed
      ∧ (expireEdit cfg oracle st key mid burl t).1.fetchCount = st.fetchCount := by
  unfold expireEdit
  split
  · exact ⟨rfl, rfl⟩
  · exact ⟨(afterEdit_counters _ _ _ _).1.trans (doEdit_counters _ _ _ _ _ _).1,
      (afterEdit_counters _ _ _ _).2.trans (doEdit_counters _ _ _ _ _ _).2⟩

theorem playerUpgrade_counters (cfg : Cfg) (oracle : Oracle) (key : String)
    (mi si mid burl : PyVal) (st1 : PassSt) (data : PyVal) :
    (playerUpgrade cfg oracle key mi si mid burl st1 data).1.checksUsed = st1.checksUsed
      ∧ (playerUpgrade cfg oracle key mi si mid burl st1 data).1.fetchCount
        = st1.fetchCount := by
  unfold playerUpgrade
  split
  · exact ⟨rfl, rfl⟩
  · split
    · exact ⟨rfl, rfl⟩
    · split
      · exact ⟨rfl, rfl⟩
      · refine ⟨(afterEdit_counters _ _ _ _).1.trans ?_, (afterEdit_counters _ _ _ _).2.trans ?_⟩
        · split
          · rfl
          · rfl
        · split
          · rfl
          · rfl

theorem partyUpgrade_counters (cfg : Cfg) (oracle : Oracle) (key : String)
    (pid mid burl : PyVal) (ir : Int) (st1 : PassSt) (data : PyVal) :
    (partyUpgrade cfg oracle key pid mid burl ir st1 data).1.checksUsed = st1.checksUsed
      ∧ (partyUpgrade cfg oracle key pid mid burl ir st1 data).1.fetchCount
        = st1.fetchCount := by
  unfold partyUpgrade
  dsimp only
  repeat' split
  all_goals try exact ⟨rfl, rfl⟩
  all_goals exact ⟨(afterEdit_counters _ _ _ _).1.trans (doEdit_counters _ _ _ _ _ _).1,
    (afterEdit_counters _ _ _ _).2.trans (doEdit_counters _ _ _ _ _ _).2⟩

theorem duelUpgrade_counters (cfg : Cfg) (oracle : Oracle) (key : String)
    (mid burl : PyVal) (st1 : PassSt) (data : PyVal) :
    (duelUpgrade cfg oracle key mid burl st1 data).1.checksUsed = st1.checksUsed
      ∧ (duelUpgrade cfg oracle key mid burl st1 data).1.fetchCount = st1.fetchCount := by
  unfold duelUpgrade
  dsimp only
  repeat' split
  all_goals try exact ⟨rfl, rfl⟩
  all_goals exact ⟨(afterEdit_counters _ _ _ _).1.trans (doEdit_counters _ _ _ _ _ _).1,
    (afterEdit_counters _ _ _ _).2.trans (doEdit_counters _ _ _ _ _ _).2⟩

theorem pollWith_counters (cfg : Cfg) (oracle : Oracle)
    (locate : PassSt → PyVal → PassSt × Bool)
    (hloc : ∀ s d, (locate s d).1.checksUsed = s.checksUsed
      ∧ (locate s d).1.fetchCount = s.fetchCount)
    (st : PassSt) (key : String) (entry : PyVal) :
    (pollWith cfg oracle locate st key entry).1.checksUsed = st.checksUsed + 1
      ∧ (pollWith cfg oracle locate st key entry).1.fetchCount = st.fetchCount + 1 := by
  unfold pollWith
  refine ⟨?_, ?_⟩ <;> dsimp only
  · split
    · rfl
    · exact (hloc _ _).1.trans rfl
  · split
    · rfl
    · exact (hloc _ _).2.trans rfl

theorem playerStep_counters (cfg : Cfg) (oracle : Oracle) (maxCh : Int)
    (st : PassSt) (kv : String × PyVal) :
    ((playerStep cfg oracle maxCh st kv).1.checksUsed = st.checksUsed
        ∧ (playerStep cfg oracle maxCh st kv).1.fetchCount = st.fetchCount)
      ∨ (st.checksUsed < maxCh
        ∧ (playerStep cfg oracle maxCh st kv).1.checksUsed = st.checksUsed + 1
        ∧ (playerStep cfg oracle maxCh st kv).1.fetchCount = st.fetchCount + 1) := by
  unfold playerStep
  dsimp only
  repeat' split
  all_goals try exact .inl ⟨rfl, rfl⟩
  all_goals try exact .inl (expireEdit_counters _ _ _ _ _ _ _)
  all_goals refine .inr ⟨by omega, pollWith_counters _ _ _ ?_ _ _ _⟩
  all_goals exact fun s d => playerUpgrade_counters _ _ _ _ _ _ _ s d

theorem partyStep_counters (cfg : Cfg) (oracle : Oracle) (maxCh : Int)
    (st : PassSt) (kv : String × PyVal) :
    ((partyStep cfg oracle maxCh st kv).1.checksUsed = st.checksUsed
        ∧ (partyStep cfg oracle maxCh st kv).1.fetchCount = st.fetchCount)
      ∨ (st.checksUsed < maxCh
        ∧ (partyStep cfg oracle maxCh st kv).1.checksUsed = st.checksUsed + 1
        ∧ (partyStep cfg oracle maxCh st kv).1.fetchCount = st.fetchCount + 1) := by
  unfold partyStep
  dsimp only
  repeat' split
  all_goals try exact .inl ⟨rfl, rfl⟩
  all_goals try exact .inl (expireEdit_counters _ _ _ _ _ _ _)
  all_goals refine .inr ⟨by omega, pollWith_counters _ _ _ ?_ _ _ _⟩
  all_goals exact fun s d => partyUpgrade_counters _ _ _ _ _ _ _ s d

theorem duelStep_counters (cfg : Cfg) (oracle : Oracle) (maxCh : Int)
    (st : PassSt) (kv : String × PyVal) :
    ((duelStep cfg oracle maxCh st kv).1.checksUsed = st.checksUsed
        ∧ (duelStep cfg oracle maxCh st kv).1.fetchCount = st.fetchCount)
      ∨ (st.checksUsed < maxCh
        ∧ (duelStep cfg oracle maxCh st kv).1.checksUsed = st.checksUsed + 1
        ∧ (duelStep cfg oracle maxCh st kv).1.fetchCount = st.fetchCount + 1) := by
  unfold duelStep
  dsimp only
  repeat' split
  all_goals try exact .inl ⟨rfl, rfl⟩
  all_goals try exact .inl (expireEdit_counters _ _ _ _ _ _ _)
  all_goals refine .inr ⟨by omega, pollWith_counters _ _ _ ?_ _ _ _⟩
  all_goals exact fun s d => duelUpgrade_counters _ _ _ _ _ s d

/-- An invariant preserved by a section's per-entry step is preserved by the
whole walk. -/
theorem runEntries_inv (f : PassSt → (String × PyVal) → PassSt × Bool)
    (P : PassSt → Prop) (hf : ∀ st kv, P st → P (f st kv).1) :
    ∀ (l : List (String × PyVal)) (st : PassSt), P st → P (runEntries f st l).1 := by
  intro l
  induction l with
  | nil => intro st h; exact h
  | cons kv rest ih =>
    intro st h
    unfold runEntries
    dsimp only
    split
    · exact hf st kv h
    · exact ih _ (hf st kv h)

/-- The budget invariant: the shared counter equals the number of fetch calls
made so far, and never exceeds the per-run maximum. -/
def budgetInv (maxCh : Int) (st : PassSt) : Prop :=
  st.checksUsed = (st.fetchCount : Int) ∧ st.checksUsed ≤ maxCh

theorem budgetInv_of_counters (maxCh : Int) (st : PassSt) (st2 : PassSt)
    (h : (st2.checksUsed = st.checksUsed ∧ st2.fetchCount = st.fetchCount)
      ∨ (st.checksUsed < maxCh ∧ st2.checksUsed = st.checksUsed + 1
          ∧ st2.fetchCount = st.fetchCount + 1))
    (hP : budgetInv maxCh st) : budgetInv maxCh st2 := by
  rcases hP with ⟨h1, h2⟩
  rcases h with ⟨ha, hb⟩ | ⟨ha, hb, hc⟩ <;> constructor <;> omega

theorem runSection_budget (step : PassSt → (String × PyVal) → PassSt × Bool)
    (maxCh : Int)
    (hstep : ∀ st kv, ((step st kv).1.checksUsed = st.checksUsed
        ∧ (step st kv).1.fetchCount = st.fetchCount)
      ∨ (st.checksUsed < maxCh ∧ (step st kv).1.checksUsed = st.checksUsed + 1
          ∧ (step st kv).1.fetchCount = st.fetchCount + 1))
    (st1 : PassSt) (field : String) (h : budgetInv maxCh st1) :
    budgetInv maxCh (runSection step st1 field).1 := by
  unfold runSection
  dsimp only
  split
  · rename_i pk heq
    split
    · exact h
    · exact runEntries_inv step (budgetInv maxCh)
        (fun st kv hP => budgetInv_of_counters maxCh st _ (hstep st kv) hP)
        (sortByPosted pk) { st1 with pending := pk } h
  · exact h


theorem abortResult_fetchCount (a : Bool) (p : List (String × PyVal)) (st : PassSt) :
    (abortResult a p st).fetchCount = st.fetchCount := rfl

theorem clampInt_bounds (lo hi v : Int) (h : lo ≤ hi) :
    lo ≤ clampInt lo hi v ∧ clampInt lo hi v ≤ hi := by
  unfold clampInt
  omega

theorem env_max_checks_bounds (raw : String) :
    1 ≤ _env_max_checks_per_run raw ∧ _env_max_checks_per_run raw ≤ 50 := by
  unfold _env_max_checks_per_run
  dsimp only
  split
  · exact clampInt_bounds 1 50 _ (by omega)
  · omega

theorem passFrom_budget (cfg : Cfg) (oracle : Oracle) (maxCh : Int)
    (pendingAlias : Bool) (st0 : PassSt) (h : budgetInv maxCh st0) :
    ((passFrom cfg oracle maxCh pendingAlias st0).fetchCount : Int) ≤ maxCh := by
  have h1 := runEntries_inv (playerStep cfg oracle maxCh) (budgetInv maxCh)
    (fun st kv hP => budgetInv_of_counters maxCh st _ (playerStep_counters cfg oracle maxCh st kv) hP)
    (sortByPosted st0.pending) st0 h
  have h2 := runSection_budget (partyStep cfg oracle maxCh) maxCh
    (partyStep_counters cfg oracle maxCh)
    (runEntries (playerStep cfg oracle maxCh) st0 (sortByPosted st0.pending)).1
    "partyPending" h1
  have h3 := runSection_budget (duelStep cfg oracle maxCh) maxCh
    (duelStep_counters cfg oracle maxCh)
    (runSection (partyStep cfg oracle maxCh)
      (runEntries (playerStep cfg oracle maxCh) st0 (sortByPosted st0.pending)).1
      "partyPending").1
    "duelPending" h2
  unfold passFrom
  dsimp only
  split
  · rw [abortResult_fetchCount]
    obtain ⟨ha, hb⟩ := h1
    omega
  · split
    · rw [abortResult_fetchCount]
      obtain ⟨ha, hb⟩ := h2
      omega
    · split
      · rw [abortResult_fetchCount]
        obtain ⟨ha, hb⟩ := h3
        omega
      · obtain ⟨ha, hb⟩ := h3
        exact le_trans (by omega : ((runSection (duelStep cfg oracle maxCh)
          (runSection (partyStep cfg oracle maxCh)
            (runEntries (playerStep cfg oracle maxCh) st0 (sortByPosted st0.pending)).1
            "partyPending").1 "duelPending").1.fetchCount : Int) ≤ maxCh) (le_refl _)

/-- C10: within one invocation of `process_pending_upgrades_and_expiry`, one
shared counter bounds the upstream polls across the player, party and duel
sections: the total number of `fetch_full_match` calls never exceeds the
configured per-run maximum, which defaults to 8 and clamps a digit-string
environment override into `[1, 50]`. -/
theorem C10_shared_poll_budget :
    (∀ (cfg : Cfg) (oracle : Oracle) (w0 : WState) (state0 : List (String × PyVal)),
      ((process_pending_upgrades_and_expiry cfg oracle w0 state0).fetchCount : Int)
        ≤ _env_max_checks_per_run cfg.envMaxChecksRaw)
    ∧ _env_max_checks_per_run "" = 8
    ∧ (∀ raw : String, pyIsDigit (pyStrip raw) = true →
        _env_max_checks_per_run raw
          = clampInt 1 50 (digitsToNat (strChars (pyStrip raw)) : Int)) := by
  refine ⟨?_, rfl, ?_⟩
  · intro cfg oracle w0 state0
    have hone := (env_max_checks_bounds cfg.envMaxChecksRaw).1
    unfold process_pending_upgrades_and_expiry
    dsimp only
    split
    · split
      · show ((0 : Nat) : Int) ≤ _env_max_checks_per_run cfg.envMaxChecksRaw
        omega
      · refine passFrom_budget cfg oracle _ _ _ ⟨?_, ?_⟩
        · show (0 : Int) = ((0 : Nat) : Int)
          rfl
        · show (0 : Int) ≤ _env_max_checks_per_run cfg.envMaxChecksRaw
          omega
    · split
      · show ((0 : Nat) : Int) ≤ _env_max_checks_per_run cfg.envMaxChecksRaw
        omega
      · refine passFrom_budget cfg oracle _ _ _ ⟨?_, ?_⟩
        · show (0 : Int) = ((0 : Nat) : Int)
          rfl
        · show (0 : Int) ≤ _env_max_checks_per_run cfg.envMaxChecksRaw
          omega
  · intro raw hraw
    unfold _env_max_checks_per_run
    dsimp only
    rw [if_pos hraw]

-- ---------- Concrete fixtures used by witnesses and counterexamples ----------

/-- A prod-mode configuration with no debug overrides, used by concrete
witnesses. -/
def cfgW : Cfg :=
  { debugLevel := 0, envWebhookDebug := "", defaultWebhookUrl := none,
    partyDebugWebhook := "", configWebhookUrl := .vNone, playersKeys := [],
    discordIds := [], envExpiryRaw := "", envMaxChecksRaw := "",
    nowEpoch := ⟨1900, 1⟩, nowIsoStr := "2025-08-16T05:00:00+00:00" }

/-- An idle delivery-client state: no hard block, no cooldown, clock at 0. -/
def wIdle : WState := ⟨false, ⟨0, 1⟩, ⟨0, 1⟩⟩

/-- A success response with no message id in the body. -/
def respOk : HttpResp := ⟨200, none, false, none⟩

/-- An oracle whose stats source always answers `None` (not ready) and whose
edit calls always succeed. -/
def oracleQuiet : Oracle := ⟨fun _ => .vNone, fun _ => [respOk]⟩

theorem C10_shared_poll_budget_witness :
    (pyIsDigit (pyStrip "7") = true
        ∧ _env_max_checks_per_run "7"
          = clampInt 1 50 (digitsToNat (strChars (pyStrip "7")) : Int))
      ∧ ((process_pending_upgrades_and_expiry cfgW oracleQuiet wIdle []).fetchCount : Int)
        ≤ _env_max_checks_per_run cfgW.envMaxChecksRaw :=
  ⟨⟨by decide, C10_shared_poll_budget.2.2 "7" (by decide)⟩,
    C10_shared_poll_budget.1 cfgW oracleQuiet wIdle []⟩

/-- C9: whenever the global cooldown is active at the start of a create or
edit call (and the endpoint resolves), the call returns a `rate_limited`
failure carrying the remaining cooldown duration, and attempts no HTTP
request. -/
theorem C9_global_cooldown_short_circuit (cfg : Cfg) (w : WState) (mid : PyVal)
    (title : String) (url : Option String) (want : Bool) (resps : List HttpResp)
    (u : String)
    (hpost : _ensure_webhook_url cfg (routeWebhook cfg title url) = some u)
    (hcd : _webhook_cooldown_active w = true) :
    post_to_discord_embed cfg w title url want resps
        = (w, ⟨false, none, .rate_limited, webhook_cooldown_remaining w, 0⟩)
      ∧ edit_discord_message cfg w mid title url resps
        = (w, ⟨false, .rate_limited, webhook_cooldown_remaining w, 0⟩) := by
  constructor
  · unfold post_to_discord_embed
    rw [hpost]
    dsimp only
    rw [if_pos hcd]
  · unfold edit_discord_message
    rw [hpost]
    dsimp only
    rw [if_pos hcd]

theorem C9_global_cooldown_short_circuit_witness :
    _ensure_webhook_url cfgW (routeWebhook cfgW "embed" (some "https://wh")) = some "https://wh"
      ∧ _webhook_cooldown_active ⟨false, ⟨5, 1⟩, ⟨0, 1⟩⟩ = true
      ∧ post_to_discord_embed cfgW ⟨false, ⟨5, 1⟩, ⟨0, 1⟩⟩ "embed" (some "https://wh") false
          [respOk]
        = (⟨false, ⟨5, 1⟩, ⟨0, 1⟩⟩,
            ⟨false, none, .rate_limited, webhook_cooldown_remaining ⟨false, ⟨5, 1⟩, ⟨0, 1⟩⟩, 0⟩) :=
  ⟨by decide, by decide,
    (C9_global_cooldown_short_circuit cfgW ⟨false, ⟨5, 1⟩, ⟨0, 1⟩⟩ (.vStr "m") "embed"
      (some "https://wh") false [respOk] "https://wh" (by decide) (by decide)).1⟩

/-- C2 counterexample: a create call that receives a rate-limited response
with a parsed retry-after of 20 seconds (over the 10-second threshold) does
NOT return `rate_limited` without retrying locally — it issues a second
request and, when the retry succeeds, returns `ok`. -/
theorem C2_counterexample :
    (post_to_discord_embed cfgW wIdle "embed" (some "https://wh") false
        [⟨429, some ⟨20, 1⟩, false, none⟩, respOk]).2.code = OutCode.ok
      ∧ (post_to_discord_embed cfgW wIdle "embed" (some "https://wh") false
        [⟨429, some ⟨20, 1⟩, false, none⟩, respOk]).2.requests = 2 := by
  constructor <;> decide

/-- C2 as amended: on a first rate-limited response, `edit_discord_message`
with parsed backoff over 10 seconds sets the global cooldown and returns
`rate_limited` with one request; `post_to_discord_embed` sets the global
cooldown for such a backoff but still sleeps and retries once; with backoff at
most 10 seconds both paths retry exactly once; and a second rate-limited
response on the retry sets no global cooldown — the create path returns
`rate_limited` with the larger backoff, the edit path returns `other_error`. -/
theorem C2_rate_limit_handling (cfg : Cfg) (w : WState) (mid : PyVal)
    (title : String) (url : Option String) (u : String) (r rr : HttpResp)
    (rest : List HttpResp)
    (hpost : _ensure_webhook_url cfg (routeWebhook cfg title url) = some u)
    (hcd : _webhook_cooldown_active w = false)
    (h429 : r.status = 429) :
    (Q.lt (Q.ofInt 10) (_parse_retry_after r) = true →
        edit_discord_message cfg w mid title url (r :: rest)
          = (_set_webhook_cooldown w (_parse_retry_after r),
              ⟨false, .rate_limited, _parse_retry_after r, 1⟩))
      ∧ (Q.lt (Q.ofInt 10) (_parse_retry_after r) = true → rr.status = 200 →
          post_to_discord_embed cfg w title url false (r :: rr :: rest)
            = (wsleep (wsleep (_set_webhook_cooldown w (_parse_retry_after r))
                  (_parse_retry_after r)) ⟨11, 10⟩,
                ⟨true, none, .ok, Q.ofInt 0, 2⟩))
      ∧ (Q.lt (Q.ofInt 10) (_parse_retry_after r) = false →
          (post_to_discord_embed cfg w title url false (r :: rr :: rest)).2.requests = 2
            ∧ (edit_discord_message cfg w mid title url (r :: rr :: rest)).2.requests = 2)
      ∧ (Q.lt (Q.ofInt 10) (_parse_retry_after r) = false → rr.status = 429 →
          rr.cfText = false →
          (post_to_discord_embed cfg w title url false (r :: rr :: rest)).1.cooldownUntil
              = w.cooldownUntil
            ∧ (post_to_discord_embed cfg w title url false (r :: rr :: rest)).2
              = ⟨false, none, .rate_limited,
                  Q.max (_parse_retry_after r) (_parse_retry_after rr), 2⟩
            ∧ (edit_discord_message cfg w mid title url (r :: rr :: rest)).1.cooldownUntil
              = w.cooldownUntil
            ∧ (edit_discord_message cfg w mid title url (r :: rr :: rest)).2
              = ⟨false, .other_error, Q.ofInt 0, 2⟩) := by
  have hcd2 : ¬ _webhook_cooldown_active w = true := by simp [hcd]
  have hn200 : ¬ (r.status = 200 ∨ r.status = 204) := by rw [h429]; decide
  have hn404 : ¬ (r.status = 404 ∨ r.status = 410) := by rw [h429]; decide
  refine ⟨?_, ?_, ?_, ?_⟩
  · intro hb
    unfold edit_discord_message
    rw [hpost]
    try dsimp only
    rw [if_neg hcd2]
    try dsimp only
    rw [if_neg hn200, if_neg hn404, if_pos h429, if_pos hb]
  · intro hb h200
    unfold post_to_discord_embed
    rw [hpost]
    try dsimp only
    rw [if_neg hcd2]
    try dsimp only
    rw [if_neg hn200, if_pos h429]
    try dsimp only
    rw [if_pos hb]
    rw [if_pos (show rr.status = 200 ∨ rr.status = 204 from .inl h200)]
    unfold postSuccess
    rw [if_neg (by simp)]
    simp
  · intro hb
    constructor
    · unfold post_to_discord_embed
      rw [hpost]
      try dsimp only
      rw [if_neg hcd2]
      try dsimp only
      rw [if_neg hn200, if_pos h429]
      try dsimp only
      unfold postSuccess
      repeat' split
      all_goals rfl
    · unfold edit_discord_message
      rw [hpost]
      try dsimp only
      rw [if_neg hcd2]
      try dsimp only
      rw [if_neg hn200, if_neg hn404, if_pos h429, if_neg (by simp [hb])]
      try dsimp only
      repeat' split
      all_goals rfl
  · intro hb h429b hcf
    have hbneg : ¬ (Q.lt (Q.ofInt 10) (_parse_retry_after r) = true) := by simp [hb]
    have hrr200 : ¬ (rr.status = 200 ∨ rr.status = 204) := by rw [h429b]; decide
    have hrr404 : ¬ (rr.status = 404 ∨ rr.status = 410) := by rw [h429b]; decide
    have hrrcf : ¬ _looks_like_cloudflare_1015 rr = true := by
      unfold _looks_like_cloudflare_1015
      simp [hcf]
    refine ⟨?_, ?_, ?_, ?_⟩
    · unfold post_to_discord_embed
      rw [hpost]
      try dsimp only
      rw [if_neg hcd2]
      try dsimp only
      rw [if_neg hn200, if_pos h429]
      try dsimp only
      rw [if_neg hbneg, if_neg hrr200, if_neg hrrcf, if_pos h429b]
      try rfl
    · unfold post_to_discord_embed
      rw [hpost]
      try dsimp only
      rw [if_neg hcd2]
      try dsimp only
      rw [if_neg hn200, if_pos h429]
      try dsimp only
      rw [if_neg hbneg, if_neg hrr200, if_neg hrrcf, if_pos h429b]
      try rfl
    · unfold edit_discord_message
      rw [hpost]
      try dsimp only
      rw [if_neg hcd2]
      try dsimp only
      rw [if_neg hn200, if_neg hn404, if_pos h429, if_neg hbneg]
      try dsimp only
      rw [if_neg hrr200, if_neg hrr404, if_neg hrrcf]
      try rfl
    · unfold edit_discord_message
      rw [hpost]
      try dsimp only
      rw [if_neg hcd2]
      try dsimp only
      rw [if_neg hn200, if_neg hn404, if_pos h429, if_neg hbneg]
      try dsimp only
      rw [if_neg hrr200, if_neg hrr404, if_neg hrrcf]
      try rfl

theorem C2_rate_limit_handling_witness :
    Q.lt (Q.ofInt 10) (_parse_retry_after ⟨429, some ⟨20, 1⟩, false, none⟩) = true
      ∧ edit_discord_message cfgW wIdle (.vStr "m") "embed" (some "https://wh")
          [⟨429, some ⟨20, 1⟩, false, none⟩]
        = (_set_webhook_cooldown wIdle (_parse_retry_after ⟨429, some ⟨20, 1⟩, false, none⟩),
            ⟨false, .rate_limited, _parse_retry_after ⟨429, some ⟨20, 1⟩, false, none⟩, 1⟩) :=
  ⟨by decide,
    (C2_rate_limit_handling cfgW wIdle (.vStr "m") "embed" (some "https://wh") "https://wh"
      ⟨429, some ⟨20, 1⟩, false, none⟩ respOk [] (by decide) (by decide) (by decide)).1
      (by decide)⟩

-- ---------- Helper lemmas: the permanent hard-block flag ----------

theorem post_hardBlocked_mono (cfg : Cfg) (w : WState) (title : String)
    (url : Option String) (want : Bool) (resps : List HttpResp)
    (h : w.hardBlocked = true) :
    (post_to_discord_embed cfg w title url want resps).1.hardBlocked = true := by
  unfold post_to_discord_embed postSuccess
  dsimp only
  repeat' split
  all_goals first | exact h | rfl

theorem edit_hardBlocked_mono (cfg : Cfg) (w : WState) (mid : PyVal) (title : String)
    (url : Option String) (resps : List HttpResp)
    (h : w.hardBlocked = true) :
    (edit_discord_message cfg w mid title url resps).1.hardBlocked = true := by
  unfold edit_discord_message
  dsimp only
  repeat' split
  all_goals first | exact h | rfl

theorem edit_hard_block_state (cfg : Cfg) (w : WState) (mid : PyVal) (title : String)
    (url : Option String) (resps : List HttpResp) :
    (edit_discord_message cfg w mid title url resps).2.code = OutCode.hard_block →
      (edit_discord_message cfg w mid title url resps).2.ok = false
        ∧ (edit_discord_message cfg w mid title url resps).1.hardBlocked = true := by
  unfold edit_discord_message
  dsimp only
  repeat' split
  all_goals intro h
  all_goals first | exact ⟨rfl, rfl⟩ | (exfalso; simp at h)

theorem afterEdit_w (st : PassSt) (k : String) (d : Q) (ret : EditRet) :
    (afterEdit st k d ret).1.w.hardBlocked = st.w.hardBlocked := by
  unfold afterEdit
  repeat' split
  all_goals rfl

theorem doEdit_w_mono (cfg : Cfg) (oracle : Oracle) (st : PassSt) (m : PyVal)
    (t u : String) (h : st.w.hardBlocked = true) :
    (doEdit cfg oracle st m t u).1.w.hardBlocked = true :=
  edit_hardBlocked_mono cfg st.w m t (some u) (oracle.editRespO st.editCount) h

theorem expireEdit_w_mono (cfg : Cfg) (oracle : Oracle) (st : PassSt) (key : String)
    (mid burl : PyVal) (t : String) (h : st.w.hardBlocked = true) :
    (expireEdit cfg oracle st key mid burl t).1.w.hardBlocked = true := by
  unfold expireEdit
  split
  · exact h
  · exact (afterEdit_w _ _ _ _).trans (doEdit_w_mono _ _ _ _ _ _ h)

theorem playerUpgrade_w_mono (cfg : Cfg) (oracle : Oracle) (key : String)
    (mi si mid burl : PyVal) (st1 : PassSt) (data : PyVal)
    (h : st1.w.hardBlocked = true) :
    (playerUpgrade cfg oracle key mi si mid burl st1 data).1.w.hardBlocked = true := by
  unfold playerUpgrade
  repeat' split
  all_goals try exact h
  all_goals refine (afterEdit_w _ _ _ _).trans ?_
  all_goals split
  all_goals exact doEdit_w_mono _ _ _ _ _ _ h

theorem partyUpgrade_w_mono (cfg : Cfg) (oracle : Oracle) (key : String)
    (pid mid burl : PyVal) (ir : Int) (st1 : PassSt) (data : PyVal)
    (h : st1.w.hardBlocked = true) :
    (partyUpgrade cfg oracle key pid mid burl ir st1 data).1.w.hardBlocked = true := by
  unfold partyUpgrade
  dsimp only
  repeat' split
  all_goals try exact h
  all_goals exact (afterEdit_w _ _ _ _).trans (doEdit_w_mono _ _ _ _ _ _ h)

theorem duelUpgrade_w_mono (cfg : Cfg) (oracle : Oracle) (key : String)
    (mid burl : PyVal) (st1 : PassSt) (data : PyVal)
    (h : st1.w.hardBlocked = true) :
    (duelUpgrade cfg oracle key mid burl st1 data).1.w.hardBlocked = true := by
  unfold duelUpgrade
  dsimp only
  repeat' split
  all_goals try exact h
  all_goals exact (afterEdit_w _ _ _ _).trans (doEdit_w_mono _ _ _ _ _ _ h)

theorem pollWith_w_mono (cfg : Cfg) (oracle : Oracle)
    (locate : PassSt → PyVal → PassSt × Bool)
    (hloc : ∀ s d, s.w.hardBlocked = true → (locate s d).1.w.hardBlocked = true)
    (st : PassSt) (key : String) (entry : PyVal) (h : st.w.hardBlocked = true) :
    (pollWith cfg oracle locate st key entry).1.w.hardBlocked = true := by
  unfold pollWith
  dsimp only
  split
  · exact h
  · exact hloc _ _ h

theorem playerStep_w_mono (cfg : Cfg) (oracle : Oracle) (maxCh : Int)
    (st : PassSt) (kv : String × PyVal) (h : st.w.hardBlocked = true) :
    (playerStep cfg oracle maxCh st kv).1.w.hardBlocked = true := by
  unfold playerStep
  dsimp only
  repeat' split
  all_goals try exact h
  all_goals try exact expireEdit_w_mono _ _ _ _ _ _ _ h
  all_goals refine pollWith_w_mono _ _ _ ?_ _ _ _ h
  all_goals exact fun s d hs => playerUpgrade_w_mono _ _ _ _ _ _ _ s d hs

theorem partyStep_w_mono (cfg : Cfg) (oracle : Oracle) (maxCh : Int)
    (st : PassSt) (kv : String × PyVal) (h : st.w.hardBlocked = true) :
    (partyStep cfg oracle maxCh st kv).1.w.hardBlocked = true := by
  unfold partyStep
  dsimp only
  repeat' split
  all_goals try exact h
  all_goals try exact expireEdit_w_mono _ _ _ _ _ _ _ h
  all_goals refine pollWith_w_mono _ _ _ ?_ _ _ _ h
  all_goals exact fun s d hs => partyUpgrade_w_mono _ _ _ _ _ _ _ s d hs

theorem duelStep_w_mono (cfg : Cfg) (oracle : Oracle) (maxCh : Int)
    (st : PassSt) (kv : String × PyVal) (h : st.w.hardBlocked = true) :
    (duelStep cfg oracle maxCh st kv).1.w.hardBlocked = true := by
  unfold duelStep
  dsimp only
  repeat' split
  all_goals try exact h
  all_goals try exact expireEdit_w_mono _ _ _ _ _ _ _ h
  all_goals refine pollWith_w_mono _ _ _ ?_ _ _ _ h
  all_goals exact fun s d hs => duelUpgrade_w_mono _ _ _ _ _ s d hs

theorem runSection_w_mono (step : PassSt → (String × PyVal) → PassSt × Bool)
    (hstep : ∀ st kv, st.w.hardBlocked = true → (step st kv).1.w.hardBlocked = true)
    (st1 : PassSt) (field : String) (h : st1.w.hardBlocked = true) :
    (runSection step st1 field).1.w.hardBlocked = true := by
  unfold runSection
  dsimp only
  split
  · rename_i pk heq
    split
    · exact h
    · exact runEntries_inv step (fun st => st.w.hardBlocked = true)
        (fun st kv hP => hstep st kv hP) (sortByPosted pk) { st1 with pending := pk } h
  · exact h

theorem abortResult_w (a : Bool) (p : List (String × PyVal)) (st : PassSt) :
    (abortResult a p st).w = st.w := rfl

theorem passFrom_w_mono (cfg : Cfg) (oracle : Oracle) (maxCh : Int)
    (pendingAlias : Bool) (st0 : PassSt) (h : st0.w.hardBlocked = true) :
    (passFrom cfg oracle maxCh pendingAlias st0).w.hardBlocked = true := by
  have h1 := runEntries_inv (playerStep cfg oracle maxCh) (fun st => st.w.hardBlocked = true)
    (fun st kv hP => playerStep_w_mono cfg oracle maxCh st kv hP)
    (sortByPosted st0.pending) st0 h
  have h2 := runSection_w_mono (partyStep cfg oracle maxCh)
    (partyStep_w_mono cfg oracle maxCh)
    (runEntries (playerStep cfg oracle maxCh) st0 (sortByPosted st0.pending)).1
    "partyPending" h1
  have h3 := runSection_w_mono (duelStep cfg oracle maxCh)
    (duelStep_w_mono cfg oracle maxCh)
    (runSection (partyStep cfg oracle maxCh)
      (runEntries (playerStep cfg oracle maxCh) st0 (sortByPosted st0.pending)).1
      "partyPending").1
    "duelPending" h2
  unfold passFrom
  dsimp only
  split
  · exact h1
  · split
    · exact h2
    · split
      · exact h3
      · exact h3

theorem process_w_mono (cfg : Cfg) (oracle : Oracle) (w0 : WState)
    (state0 : List (String × PyVal)) (h : w0.hardBlocked = true) :
    (process_pending_upgrades_and_expiry cfg oracle w0 state0).w.hardBlocked = true := by
  unfold process_pending_upgrades_and_expiry
  dsimp only
  split
  all_goals split
  all_goals first
    | exact h
    | exact passFrom_w_mono cfg oracle _ _ _ h

-- ---------- Helper lemmas: reducing one pass to its first entry ----------

theorem runEntries_cons_abort (f : PassSt → (String × PyVal) → PassSt × Bool)
    (st : PassSt) (kv : String × PyVal) (rest : List (String × PyVal)) (stA : PassSt)
    (h : f st kv = (stA, true)) :
    runEntries f st (kv :: rest) = (stA, true) := by
  unfold runEntries
  rw [h]
  rfl

theorem runEntries_cons_cont (f : PassSt → (String × PyVal) → PassSt × Bool)
    (st : PassSt) (kv : String × PyVal) (rest : List (String × PyVal)) (st2 : PassSt)
    (h : f st kv = (st2, false)) :
    runEntries f st (kv :: rest) = runEntries f st2 rest := by
  conv_lhs => unfold runEntries
  rw [h]
  rfl

theorem process_eq_passFrom (cfg : Cfg) (oracle : Oracle) (w0 : WState)
    (state0 : List (String × PyVal)) (pm : List (String × PyVal))
    (hlook : alookup state0 "pending" = some (.vDict pm)) (hpm : pm ≠ []) :
    process_pending_upgrades_and_expiry cfg oracle w0 state0
      = passFrom cfg oracle (_env_max_checks_per_run cfg.envMaxChecksRaw) true
          { pending := _normalize_pending_map pm, state := state0, w := w0,
            checksUsed := 0, fetchCount := 0, editCount := 0, editLog := [],
            polledKeys := [] } := by
  have ht : (PyVal.vDict pm).truthy = true := by
    cases pm with
    | nil => exact absurd rfl hpm
    | cons a l => rfl
  unfold process_pending_upgrades_and_expiry
  rw [hlook]
  dsimp only [Option.getD]
  rw [if_pos ht]
  rw [if_neg (by simp [PyVal.isDictV]), ht]
  rfl

theorem runSection_skip (step : PassSt → (String × PyVal) → PassSt × Bool)
    (st1 : PassSt) (field : String)
    (h : ((alookup st1.state field).getD .vNone).truthy = false) :
    runSection step st1 field = (st1, false) := by
  unfold runSection
  dsimp only
  rw [if_neg (by simp [h])]
  rfl

theorem passFrom_abort_first (cfg : Cfg) (oracle : Oracle) (maxCh : Int)
    (pendingAlias : Bool) (st0 : PassSt) (k1 : String) (e1 : PyVal)
    (rest : List (String × PyVal)) (stA : PassSt)
    (hsort : sortByPosted st0.pending = (k1, e1) :: rest)
    (hstep : playerStep cfg oracle maxCh st0 (k1, e1) = (stA, true)) :
    passFrom cfg oracle maxCh pendingAlias st0 = abortResult pendingAlias stA.pending stA := by
  unfold passFrom
  rw [hsort, runEntries_cons_abort _ _ _ _ _ hstep]
  rfl

theorem passFrom_complete (cfg : Cfg) (oracle : Oracle) (maxCh : Int)
    (pendingAlias : Bool) (st0 st1 : PassSt)
    (hrun : runEntries (playerStep cfg oracle maxCh) st0 (sortByPosted st0.pending)
      = (st1, false))
    (hparty : ((alookup st1.state "partyPending").getD .vNone).truthy = false)
    (hduel : ((alookup st1.state "duelPending").getD .vNone).truthy = false) :
    passFrom cfg oracle maxCh pendingAlias st0
      = { state := aset st1.state "pending" (.vDict st1.pending), ok := true, w := st1.w,
          checksUsed := st1.checksUsed, fetchCount := st1.fetchCount,
          editLog := st1.editLog, polledKeys := st1.polledKeys } := by
  unfold passFrom
  rw [hrun]
  dsimp only
  rw [runSection_skip _ _ _ hparty]
  dsimp only
  rw [runSection_skip _ _ _ hduel]
  rfl

theorem entry_expiry_ge (e : PyVal) (raw : String) :
    300 ≤ _entry_expiry_seconds e raw := by
  unfold _entry_expiry_seconds _env_expiry_seconds
  dsimp only
  repeat' split
  all_goals first | (unfold clampInt; omega) | omega

/-- Unfolding of the expiry edit when the webhook base is a string. -/
theorem expireEdit_str (cfg : Cfg) (oracle : Oracle) (st : PassSt) (key : String)
    (mid : PyVal) (u t : String) :
    expireEdit cfg oracle st key mid (.vStr u) t
      = afterEdit (doEdit cfg oracle st mid t u).1 key ⟨3, 10⟩ (doEdit cfg oracle st mid t u).2 :=
  rfl

/-- A player-pending entry that is well-formed and past its expiry deadline is
handled by the expiry edit. -/
theorem playerStep_expiry_edit (cfg : Cfg) (oracle : Oracle) (maxCh : Int)
    (st : PassSt) (k : String) (e : PyVal) (u : String)
    (hdict : e.isDictV = true)
    (hm : (pyGet e "matchId").truthy = true)
    (hs : (pyGet e "steamId").truthy = true)
    (hmsg : (pyGet e "messageId").truthy = true)
    (hw : pyGet e "webhookBase" = .vStr u) (hu : u ≠ "")
    (hpos : Q.lt (Q.ofInt 0) (_posted_at_epoch e) = true)
    (hle : Q.le (Q.ofInt (_entry_expiry_seconds e cfg.envExpiryRaw))
      (Q.sub cfg.nowEpoch (_posted_at_epoch e)) = true) :
    playerStep cfg oracle maxCh st (k, e)
      = expireEdit cfg oracle st k (pyGet e "messageId") (.vStr u) playerExpiredTitle := by
  have htr : (PyVal.vStr u).truthy = true := by simp [PyVal.truthy, hu]
  have hEne : ¬ (_entry_expiry_seconds e cfg.envExpiryRaw = 0) := by
    have := entry_expiry_ge e cfg.envExpiryRaw
    omega
  unfold playerStep
  dsimp only
  rw [hw]
  rw [if_neg (by simp [hdict])]
  rw [if_pos htr]
  rw [if_neg (by simp [hm, hs, hmsg, htr])]
  rw [if_neg hEne]
  rw [if_pos ⟨hpos, hle⟩]

theorem afterEdit_abort (st : PassSt) (k : String) (d : Q) (ret : EditRet)
    (hok : ret.ok = false) (hnf : ret.code ≠ OutCode.not_found)
    (hb : st.w.hardBlocked = true) :
    afterEdit st k d ret = (st, true) := by
  unfold afterEdit
  rw [if_neg (by simp [hok]), if_neg (by simp [hnf]),
    if_pos (Or.inl (show is_hard_blocked st.w = true from hb))]

theorem doEdit_eq (cfg : Cfg) (oracle : Oracle) (st : PassSt) (m : PyVal)
    (t u : String) :
    doEdit cfg oracle st m t u
      = ({ st with
            w := (edit_discord_message cfg st.w m t (some u) (oracle.editRespO st.editCount)).1
            editCount := st.editCount + 1
            editLog := st.editLog ++ [(m, t)] },
          (edit_discord_message cfg st.w m t (some u) (oracle.editRespO st.editCount)).2) :=
  rfl

/-- C3 counterexample: create and edit do NOT check the hard-block flag before
acting — with the flag set and no cooldown, a create call still issues an HTTP
request and can return `ok`. -/
theorem C3_counterexample :
    (⟨true, ⟨0, 1⟩, ⟨0, 1⟩⟩ : WState).hardBlocked = true
      ∧ (post_to_discord_embed cfgW ⟨true, ⟨0, 1⟩, ⟨0, 1⟩⟩ "embed" (some "https://wh") false
          [respOk]).2.ok = true
      ∧ (post_to_discord_embed cfgW ⟨true, ⟨0, 1⟩, ⟨0, 1⟩⟩ "embed" (some "https://wh") false
          [respOk]).2.requests = 1 := by
  refine ⟨rfl, ?_, ?_⟩ <;> decide

/-- C3 as amended: once the process-wide hard-block flag is set, no modelled
operation (create, edit, or a whole reconciliation pass) ever clears it; the
flag is however not checked at the start of create/edit — within the pass it
is consulted via `_abort_if_blocked` only after a failed (non-`not_found`)
edit.  If the first entry's expiry edit returns `hard_block`, the pass
processes no further entries (exactly one edit happened, no fetch happened)
and returns the "stop" signal `False`. -/
theorem C3_hard_block_permanence :
    (∀ (cfg : Cfg) (w : WState) (title : String) (url : Option String) (want : Bool)
        (resps : List HttpResp), w.hardBlocked = true →
      (post_to_discord_embed cfg w title url want resps).1.hardBlocked = true)
    ∧ (∀ (cfg : Cfg) (w : WState) (mid : PyVal) (title : String) (url : Option String)
        (resps : List HttpResp), w.hardBlocked = true →
      (edit_discord_message cfg w mid title url resps).1.hardBlocked = true)
    ∧ (∀ (cfg : Cfg) (oracle : Oracle) (w0 : WState) (state0 : List (String × PyVal)),
        w0.hardBlocked = true →
      (process_pending_upgrades_and_expiry cfg oracle w0 state0).w.hardBlocked = true)
    ∧ (∀ (cfg : Cfg) (oracle : Oracle) (w0 : WState)
        (state0 pm : List (String × PyVal)) (k1 : String) (e1 : PyVal)
        (rest : List (String × PyVal)) (u : String),
        alookup state0 "pending" = some (.vDict pm) →
        sortByPosted (_normalize_pending_map pm) = (k1, e1) :: rest →
        e1.isDictV = true →
        (pyGet e1 "matchId").truthy = true →
        (pyGet e1 "steamId").truthy = true →
        (pyGet e1 "messageId").truthy = true →
        pyGet e1 "webhookBase" = .vStr u → u ≠ "" →
        Q.lt (Q.ofInt 0) (_posted_at_epoch e1) = true →
        Q.le (Q.ofInt (_entry_expiry_seconds e1 cfg.envExpiryRaw))
          (Q.sub cfg.nowEpoch (_posted_at_epoch e1)) = true →
        (edit_discord_message cfg w0 (pyGet e1 "messageId") playerExpiredTitle (some u)
          (oracle.editRespO 0)).2.code = OutCode.hard_block →
        (process_pending_upgrades_and_expiry cfg oracle w0 state0).ok = false
          ∧ (process_pending_upgrades_and_expiry cfg oracle w0 state0).editLog
            = [(pyGet e1 "messageId", playerExpiredTitle)]
          ∧ (process_pending_upgrades_and_expiry cfg oracle w0 state0).fetchCount = 0) := by
  refine ⟨post_hardBlocked_mono, edit_hardBlocked_mono, process_w_mono, ?_⟩
  intro cfg oracle w0 state0 pm k1 e1 rest u hlook hsort hdict hm hs hmsg hw hu hpos hle hhb
  have hpm : pm ≠ [] := by
    intro hnil
    rw [hnil] at hsort
    rw [show sortByPosted (_normalize_pending_map ([] : List (String × PyVal))) = []
      from rfl] at hsort
    cases hsort
  have heq := process_eq_passFrom cfg oracle w0 state0 pm hlook hpm
  have hhbs := edit_hard_block_state cfg w0 (pyGet e1 "messageId") playerExpiredTitle
    (some u) (oracle.editRespO 0) hhb
  have hstep : playerStep cfg oracle (_env_max_checks_per_run cfg.envMaxChecksRaw)
      { pending := _normalize_pending_map pm, state := state0, w := w0, checksUsed := 0,
        fetchCount := 0, editCount := 0, editLog := [], polledKeys := [] } (k1, e1)
      = ({ pending := _normalize_pending_map pm, state := state0,
            w := (edit_discord_message cfg w0 (pyGet e1 "messageId") playerExpiredTitle
              (some u) (oracle.editRespO 0)).1,
            checksUsed := 0, fetchCount := 0, editCount := 1,
            editLog := [(pyGet e1 "messageId", playerExpiredTitle)],
            polledKeys := [] }, true) := by
    rw [playerStep_expiry_edit cfg oracle _ _ k1 e1 u hdict hm hs hmsg hw hu hpos hle]
    rw [expireEdit_str]
    rw [doEdit_eq]
    dsimp only
    rw [afterEdit_abort _ _ _ _ hhbs.1
      (by
        intro hcon
        have h2 : OutCode.hard_block = OutCode.not_found := hhb.symm.trans hcon
        cases h2)
      hhbs.2]
    rfl
  rw [heq, passFrom_abort_first cfg oracle _ true _ k1 e1 rest _ hsort hstep]
  exact ⟨rfl, rfl, rfl⟩

/-- An already-expired well-formed pending entry (posted at epoch 1000 with a
900-second expiry, against the fixture clock of 1900). -/
def eHB : PyVal := .vDict [("matchId", .vInt 555), ("steamId", .vInt 9),
  ("messageId", .vStr "m1"), ("webhookBase", .vStr "https://wh"),
  ("postedAt", .vFloat ⟨1000, 1⟩), ("expiresAfterSec", .vInt 900)]

/-- A pending map holding only `eHB`. -/
def pmHB : List (String × PyVal) := [("555:9", eHB)]

/-- A state whose pending map is `pmHB`. -/
def stateHB : List (String × PyVal) := [("pending", .vDict pmHB)]

/-- An oracle whose every edit call is answered by a short 429 and then a
Cloudflare-1015 429 on the retry, which the client classifies `hard_block`. -/
def oracleHB : Oracle := ⟨fun _ => .vNone,
  fun _ => [⟨429, some ⟨5, 1⟩, false, none⟩, ⟨429, none, true, none⟩]⟩

theorem C3_hard_block_permanence_witness :
    (edit_discord_message cfgW wIdle (pyGet eHB "messageId") playerExpiredTitle
        (some "https://wh") (oracleHB.editRespO 0)).2.code = OutCode.hard_block
      ∧ (process_pending_upgrades_and_expiry cfgW oracleHB wIdle stateHB).ok = false
      ∧ (process_pending_upgrades_and_expiry cfgW oracleHB wIdle stateHB).fetchCount = 0 := by
  have h := C3_hard_block_permanence.2.2.2 cfgW oracleHB wIdle stateHB pmHB "555:9" eHB []
    "https://wh" (by decide) (by decide) (by decide) (by decide) (by decide) (by decide)
    (by decide) (by decide) (by decide) (by decide) (by decide)
  exact ⟨by decide, h.1, h.2.2⟩

-- ---------- Helper lemmas: integer-valued Q arithmetic ----------

theorem Q.le_ofInt (a b : Int) : Q.le (Q.ofInt a) (Q.ofInt b) = true ↔ a ≤ b := by
  simp [Q.le, Q.ofInt]

theorem Q.lt_ofInt (a b : Int) : Q.lt (Q.ofInt a) (Q.ofInt b) = true ↔ a < b := by
  simp [Q.lt, Q.le, Q.ofInt]

theorem Q.sub_ofInt (a b : Int) : Q.sub (Q.ofInt a) (Q.ofInt b) = Q.ofInt (a - b) := by
  simp [Q.sub, Q.ofInt]

theorem recheck_window_bounds (e : PyVal) :
    60 ≤ _recheck_window e ∧ _recheck_window e ≤ 3600 := by
  unfold _recheck_window
  split
  · exact clampInt_bounds 60 3600 _ (by omega)
  · omega

/-- C8: recheck gating on the boundary — an entry last checked `window - 1`
seconds ago is not polled, one last checked `window` seconds ago is polled, an
entry with no `lastCheckedAt` is always due, and the effective window is the
`recheckWindowSec` override clamped into `[60, 3600]`, else the default 300. -/
theorem C8_recheck_gating :
    (∀ (e : PyVal) (sk : String) (T : Int), pyGet e "lastCheckedAt" = .vInt T → T ≠ 0 →
      _should_recheck_now e sk (Q.ofInt (T + _recheck_window e - 1)) = false)
    ∧ (∀ (e : PyVal) (sk : String) (T : Int), pyGet e "lastCheckedAt" = .vInt T → T ≠ 0 →
      _should_recheck_now e sk (Q.ofInt (T + _recheck_window e)) = true)
    ∧ (∀ (e : PyVal) (sk : String) (now : Q), pyGet e "lastCheckedAt" = .vNone →
      _should_recheck_now e sk now = true)
    ∧ (∀ (e : PyVal) (v : Int), pyGet e "recheckWindowSec" = .vInt v →
      _recheck_window e = clampInt 60 3600 v)
    ∧ (∀ e : PyVal, pyGet e "recheckWindowSec" = .vNone → _recheck_window e = 300) := by
  refine ⟨?_, ?_, ?_, ?_, ?_⟩
  · intro e sk T hlast hT
    have hw := recheck_window_bounds e
    unfold _should_recheck_now
    rw [hlast]
    dsimp only
    rw [if_neg (by simp [PyVal.truthy, hT])]
    rw [show iso_to_epoch (.vInt T) = Q.ofInt T from rfl, Q.sub_ofInt]
    rw [show _stable_jitter_seconds sk = 0 from rfl]
    unfold Q.max
    rw [if_pos (Q.lt_ofInt 5 (_recheck_window e + 0) |>.mpr (by omega))]
    rw [Bool.eq_false_iff]
    intro hcon
    have := (Q.le_ofInt _ _).mp hcon
    omega
  · intro e sk T hlast hT
    have hw := recheck_window_bounds e
    unfold _should_recheck_now
    rw [hlast]
    dsimp only
    rw [if_neg (by simp [PyVal.truthy, hT])]
    rw [show iso_to_epoch (.vInt T) = Q.ofInt T from rfl, Q.sub_ofInt]
    rw [show _stable_jitter_seconds sk = 0 from rfl]
    unfold Q.max
    rw [if_pos (Q.lt_ofInt 5 (_recheck_window e + 0) |>.mpr (by omega))]
    exact (Q.le_ofInt _ _).mpr (by omega)
  · intro e sk now hlast
    unfold _should_recheck_now
    rw [hlast]
    dsimp only
    rw [if_pos (by simp [PyVal.truthy])]
  · intro e v hov
    unfold _recheck_window
    rw [hov]
    dsimp only [pyNumQ]
    rw [show (Q.ofInt v).trunc = v by simp [Q.trunc, Q.ofInt, Int.tdiv_one]]
  · intro e hov
    unfold _recheck_window
    rw [hov]
    rfl

theorem C8_recheck_gating_witness :
    (pyGet (PyVal.vDict [("lastCheckedAt", .vInt 940), ("recheckWindowSec", .vInt 300)])
        "lastCheckedAt" = .vInt 940)
      ∧ _should_recheck_now
          (PyVal.vDict [("lastCheckedAt", .vInt 940), ("recheckWindowSec", .vInt 300)])
          "555:9"
          (Q.ofInt (940 + _recheck_window (PyVal.vDict [("lastCheckedAt", .vInt 940),
            ("recheckWindowSec", .vInt 300)]) - 1)) = false
      ∧ _should_recheck_now
          (PyVal.vDict [("lastCheckedAt", .vInt 940), ("recheckWindowSec", .vInt 300)])
          "555:9"
          (Q.ofInt (940 + _recheck_window (PyVal.vDict [("lastCheckedAt", .vInt 940),
            ("recheckWindowSec", .vInt 300)]))) = true :=
  ⟨by decide,
    C8_recheck_gating.1 (PyVal.vDict [("lastCheckedAt", .vInt 940),
      ("recheckWindowSec", .vInt 300)]) "555:9" 940 (by decide) (by decide),
    C8_recheck_gating.2.1 (PyVal.vDict [("lastCheckedAt", .vInt 940),
      ("recheckWindowSec", .vInt 300)]) "555:9" 940 (by decide) (by decide)⟩

theorem ahas_aset_self (m : List (String × PyVal)) (k : String) (v : PyVal) :
    ahas (aset m k v) k = true := by
  induction m with
  | nil => simp [aset, ahas, alookup]
  | cons hd tl ih =>
    unfold aset
    split
    · rename_i heq
      simp [ahas, alookup, heq]
    · rename_i hne
      simp only [ahas, alookup]
      split
      · simp
      · exact ih

/-- A player-pending entry whose posted-at epoch is not positive and whose
poll (if any) finds no data is never edited: the pass leaves it in the map
(possibly stamping `lastCheckedAt`) and the state and edit log are
untouched. -/
theorem playerStep_keeps_entry_no_edit (cfg : Cfg) (oracle : Oracle) (maxCh : Int)
    (st : PassSt) (k : String) (e : PyVal)
    (hcond : ¬ (Q.lt (Q.ofInt 0) (_posted_at_epoch e) = true
      ∧ Q.le (Q.ofInt (_entry_expiry_seconds e cfg.envExpiryRaw))
        (Q.sub cfg.nowEpoch (_posted_at_epoch e)) = true))
    (hnr : oracle.fetchO st.fetchCount = PyVal.vNone)
    (hah : ahas st.pending k = true) :
    ∃ p : PassSt, playerStep cfg oracle maxCh st (k, e) = (p, false)
      ∧ p.state = st.state ∧ p.editLog = st.editLog ∧ ahas p.pending k = true := by
  have hEne : ¬ (_entry_expiry_seconds e cfg.envExpiryRaw = 0) := by
    have := entry_expiry_ge e cfg.envExpiryRaw
    omega
  unfold playerStep
  dsimp only
  rw [if_neg hEne]
  repeat' split
  all_goals try exact ⟨st, rfl, rfl, rfl, hah⟩
  all_goals try exact ⟨{ st with w := wsleep st.w ⟨1, 2⟩ }, rfl, rfl, rfl, hah⟩
  all_goals
    unfold pollWith recordPoll
    dsimp only
    rw [hnr]
    rw [if_pos (by decide)]
    exact ⟨_, rfl, rfl, rfl, ahas_aset_self _ _ _⟩

/-- Reduce a whole pass over a one-entry pending map (and no party or duel
maps) to its single player step. -/
theorem process_single_entry (cfg : Cfg) (oracle : Oracle) (w0 : WState)
    (k : String) (e : PyVal) (st1 : PassSt)
    (hnorm : _normalize_pending_map [(k, e)] = [(k, e)])
    (hstep : playerStep cfg oracle (_env_max_checks_per_run cfg.envMaxChecksRaw)
      { pending := [(k, e)], state := [("pending", .vDict [(k, e)])], w := w0,
        checksUsed := 0, fetchCount := 0, editCount := 0, editLog := [],
        polledKeys := [] } (k, e) = (st1, false))
    (hparty : ((alookup st1.state "partyPending").getD .vNone).truthy = false)
    (hduel : ((alookup st1.state "duelPending").getD .vNone).truthy = false) :
    process_pending_upgrades_and_expiry cfg oracle w0 [("pending", .vDict [(k, e)])]
      = { state := aset st1.state "pending" (.vDict st1.pending), ok := true, w := st1.w,
          checksUsed := st1.checksUsed, fetchCount := st1.fetchCount,
          editLog := st1.editLog, polledKeys := st1.polledKeys } := by
  rw [process_eq_passFrom cfg oracle w0 _ [(k, e)] (by rfl) (by simp)]
  rw [hnorm]
  refine passFrom_complete cfg oracle _ true _ st1 ?_ hparty hduel
  show runEntries _ _ (sortByPosted [(k, e)]) = (st1, false)
  rw [show sortByPosted [(k, e)] = [(k, e)] from rfl]
  rw [runEntries_cons_cont _ _ _ _ _ hstep]
  rfl

theorem alookup_aset_self (m : List (String × PyVal)) (k : String) (v : PyVal) :
    alookup (aset m k v) k = some v := by
  induction m with
  | nil => simp [aset, alookup]
  | cons hd tl ih =>
    unfold aset
    split
    · rename_i heq
      simp [alookup, heq]
    · rename_i hne
      simp only [alookup]
      split
      · rename_i h2
        exact absurd h2 hne
      · exact ih

/-- A pending entry with no parseable `postedAt` (epoch `0.0`). -/
def eC1 : PyVal := .vDict [("matchId", .vInt 1), ("steamId", .vInt 2),
  ("messageId", .vStr "m"), ("webhookBase", .vStr "https://wh")]

/-- The witness clock pushed far past any admissible expiry window. -/
def cfgC1 : Cfg := { cfgW with nowEpoch := ⟨1000000000, 1⟩ }

/-- A state holding only the unparseable-`postedAt` entry. -/
def sC1 : List (String × PyVal) := [("pending", .vDict [("1:2", eC1)])]

/-- C1 counterexample: an entry whose `postedAt` is absent (so
`_posted_at_epoch` returns `0.0`) is NOT transitioned to Expired — even with
the clock far beyond every admissible expiry window and an edit oracle that
would succeed, the pass performs no edit and the entry stays Pending. -/
theorem C1_counterexample :
    _posted_at_epoch eC1 = Q.ofInt 0
      ∧ (process_pending_upgrades_and_expiry cfgC1 oracleQuiet wIdle sC1).editLog = []
      ∧ ahas (dictFields ((alookup
          (process_pending_upgrades_and_expiry cfgC1 oracleQuiet wIdle sC1).state
          "pending").getD .vNone)) "1:2" = true :=
  ⟨by decide, by decide, by decide⟩

/-- C1 as amended: an entry whose `postedAt` epoch is `0.0` is immediately
recheck-eligible (it sorts oldest), but the expiry branch requires a strictly
positive epoch, so such an entry is never expired: while its polls find no
completed data, every pass leaves it Pending with no edit issued, for any
clock and any effective expiry. -/
theorem C1_unparseable_posted_stays_pending (cfg : Cfg) (oracle : Oracle) (w0 : WState)
    (k : String) (e : PyVal)
    (hnorm : _normalize_pending_map [(k, e)] = [(k, e)])
    (hzero : _posted_at_epoch e = Q.ofInt 0)
    (hnr : ∀ n, oracle.fetchO n = PyVal.vNone) :
    (process_pending_upgrades_and_expiry cfg oracle w0 [("pending", .vDict [(k, e)])]).ok
        = true
      ∧ (process_pending_upgrades_and_expiry cfg oracle w0
          [("pending", .vDict [(k, e)])]).editLog = []
      ∧ ahas (dictFields ((alookup
          (process_pending_upgrades_and_expiry cfg oracle w0
            [("pending", .vDict [(k, e)])]).state "pending").getD .vNone)) k = true := by
  have hz : ¬ (Q.lt (Q.ofInt 0) (_posted_at_epoch e) = true
      ∧ Q.le (Q.ofInt (_entry_expiry_seconds e cfg.envExpiryRaw))
        (Q.sub cfg.nowEpoch (_posted_at_epoch e)) = true) := by
    intro hc
    have h1 := hc.1
    rw [hzero] at h1
    cases h1
  obtain ⟨p, hstep, hstate, hlog, hpend⟩ := playerStep_keeps_entry_no_edit cfg oracle
    (_env_max_checks_per_run cfg.envMaxChecksRaw)
    { pending := [(k, e)], state := [("pending", .vDict [(k, e)])], w := w0,
      checksUsed := 0, fetchCount := 0, editCount := 0, editLog := [], polledKeys := [] }
    k e hz (hnr 0) (by simp [ahas, alookup])
  have hproc := process_single_entry cfg oracle w0 k e p hnorm hstep
    (by rw [hstate]; rfl) (by rw [hstate]; rfl)
  rw [hproc]
  refine ⟨rfl, hlog, ?_⟩
  show ahas (dictFields ((alookup (aset p.state "pending" (.vDict p.pending))
    "pending").getD .vNone)) k = true
  rw [alookup_aset_self]
  exact hpend

theorem C1_unparseable_posted_stays_pending_witness :
    _normalize_pending_map [("1:2", eC1)] = [("1:2", eC1)]
      ∧ _posted_at_epoch eC1 = Q.ofInt 0
      ∧ (process_pending_upgrades_and_expiry cfgC1 oracleQuiet wIdle
          [("pending", .vDict [("1:2", eC1)])]).ok = true :=
  ⟨by decide, by decide,
    (C1_unparseable_posted_stays_pending cfgC1 oracleQuiet wIdle "1:2" eC1
      (by decide) (by decide) (fun n => rfl)).1⟩

-- ---------- C6: the expiry boundary ----------

theorem apop_single_self (k : String) (e : PyVal) : apop [(k, e)] k = [] := by
  simp [apop]

/-- A successful edit pops the entry and sleeps, continuing the pass. -/
theorem afterEdit_ok (st : PassSt) (k : String) (d : Q) (ret : EditRet)
    (hok : ret.ok = true) :
    afterEdit st k d ret
      = ({ st with pending := apop st.pending k, w := wsleep st.w d }, false) := by
  unfold afterEdit
  rw [if_pos hok]

/-- C6: expiry monotonicity at the boundary. For a well-formed entry posted at
epoch `T0 > 0` with effective expiry `E`, a pass whose clock reads `T0 + E - 1`
issues no edit and leaves the entry Pending, while a pass at `T0 + E` edits the
message to the expired title and removes the entry from the store, given the
edit returns ok. No hypothesis constrains `lastCheckedAt`: expiry is decided
before the recheck gate, so it takes priority over recheck spacing. -/
theorem C6_expiry_boundary (cfgA cfgB : Cfg) (oracle : Oracle) (w0 : WState)
    (k : String) (e : PyVal) (u : String) (T0 : Int)
    (hnorm : _normalize_pending_map [(k, e)] = [(k, e)])
    (hdict : e.isDictV = true)
    (hm : (pyGet e "matchId").truthy = true)
    (hs : (pyGet e "steamId").truthy = true)
    (hmsg : (pyGet e "messageId").truthy = true)
    (hw : pyGet e "webhookBase" = .vStr u) (hu : u ≠ "")
    (hT : _posted_at_epoch e = Q.ofInt T0) (hT0 : 0 < T0)
    (hnr : ∀ n, oracle.fetchO n = PyVal.vNone)
    (hnowA : cfgA.nowEpoch
      = Q.ofInt (T0 + _entry_expiry_seconds e cfgA.envExpiryRaw - 1))
    (hnowB : cfgB.nowEpoch
      = Q.ofInt (T0 + _entry_expiry_seconds e cfgB.envExpiryRaw))
    (hok : (edit_discord_message cfgB w0 (pyGet e "messageId") playerExpiredTitle
      (some u) (oracle.editRespO 0)).2.ok = true) :
    ((process_pending_upgrades_and_expiry cfgA oracle w0
          [("pending", .vDict [(k, e)])]).editLog = []
      ∧ ahas (dictFields ((alookup (process_pending_upgrades_and_expiry cfgA oracle w0
          [("pending", .vDict [(k, e)])]).state "pending").getD .vNone)) k = true)
    ∧ ((process_pending_upgrades_and_expiry cfgB oracle w0
          [("pending", .vDict [(k, e)])]).editLog
            = [(pyGet e "messageId", playerExpiredTitle)]
      ∧ ahas (dictFields ((alookup (process_pending_upgrades_and_expiry cfgB oracle w0
          [("pending", .vDict [(k, e)])]).state "pending").getD .vNone)) k = false
      ∧ (process_pending_upgrades_and_expiry cfgB oracle w0
          [("pending", .vDict [(k, e)])]).ok = true) := by
  constructor
  · have hz : ¬ (Q.lt (Q.ofInt 0) (_posted_at_epoch e) = true
        ∧ Q.le (Q.ofInt (_entry_expiry_seconds e cfgA.envExpiryRaw))
          (Q.sub cfgA.nowEpoch (_posted_at_epoch e)) = true) := by
      intro hc
      have h2 := hc.2
      rw [hT, hnowA, Q.sub_ofInt] at h2
      have h3 := (Q.le_ofInt _ _).mp h2
      omega
    obtain ⟨p, hstep, hstate, hlog, hpend⟩ := playerStep_keeps_entry_no_edit cfgA oracle
      (_env_max_checks_per_run cfgA.envMaxChecksRaw)
      { pending := [(k, e)], state := [("pending", .vDict [(k, e)])], w := w0,
        checksUsed := 0, fetchCount := 0, editCount := 0, editLog := [],
        polledKeys := [] }
      k e hz (hnr 0) (by simp [ahas, alookup])
    have hproc := process_single_entry cfgA oracle w0 k e p hnorm hstep
      (by rw [hstate]; rfl) (by rw [hstate]; rfl)
    rw [hproc]
    refine ⟨hlog, ?_⟩
    show ahas (dictFields ((alookup (aset p.state "pending" (.vDict p.pending))
      "pending").getD .vNone)) k = true
    rw [alookup_aset_self]
    exact hpend
  · have hpos : Q.lt (Q.ofInt 0) (_posted_at_epoch e) = true := by
      rw [hT]
      exact (Q.lt_ofInt 0 T0).mpr hT0
    have hle : Q.le (Q.ofInt (_entry_expiry_seconds e cfgB.envExpiryRaw))
        (Q.sub cfgB.nowEpoch (_posted_at_epoch e)) = true := by
      rw [hT, hnowB, Q.sub_ofInt]
      exact (Q.le_ofInt _ _).mpr (by omega)
    have hstep : playerStep cfgB oracle (_env_max_checks_per_run cfgB.envMaxChecksRaw)
        { pending := [(k, e)], state := [("pending", .vDict [(k, e)])], w := w0,
          checksUsed := 0, fetchCount := 0, editCount := 0, editLog := [],
          polledKeys := [] } (k, e)
        = ({ pending := apop [(k, e)] k,
             state := [("pending", .vDict [(k, e)])],
             w := wsleep (edit_discord_message cfgB w0 (pyGet e "messageId")
               playerExpiredTitle (some u) (oracle.editRespO 0)).1 ⟨3, 10⟩,
             checksUsed := 0, fetchCount := 0, editCount := 1,
             editLog := [(pyGet e "messageId", playerExpiredTitle)],
             polledKeys := [] }, false) := by
      rw [playerStep_expiry_edit cfgB oracle _ _ k e u hdict hm hs hmsg hw hu hpos hle]
      rw [expireEdit_str]
      rw [doEdit_eq]
      dsimp only
      rw [afterEdit_ok _ _ _ _ hok]
      rfl
    have hproc := process_single_entry cfgB oracle w0 k e _ hnorm hstep
      (by rfl) (by rfl)
    rw [hproc]
    refine ⟨rfl, ?_, rfl⟩
    show ahas (dictFields ((alookup (aset [("pending", .vDict [(k, e)])] "pending"
      (.vDict (apop [(k, e)] k))) "pending").getD .vNone)) k = false
    rw [alookup_aset_self, apop_single_self]
    rfl

/-- A well-formed pending entry posted at `2025-08-16T00:00:00+00:00`
(epoch 1755302400) with the default 10800-second expiry, last checked within
its recheck window. -/
def eC6 : PyVal := .vDict [("matchId", .vInt 1), ("steamId", .vInt 2),
  ("messageId", .vStr "m"), ("webhookBase", .vStr "https://wh"),
  ("postedAt", .vStr "2025-08-16T00:00:00+00:00"),
  ("lastCheckedAt", .vStr "2025-08-16T03:00:00+00:00")]

/-- The fixture clock one second before `eC6`'s expiry deadline. -/
def cfgA6 : Cfg := { cfgW with nowEpoch := ⟨1755313199, 1⟩ }

/-- The fixture clock exactly at `eC6`'s expiry deadline. -/
def cfgB6 : Cfg := { cfgW with nowEpoch := ⟨1755313200, 1⟩ }

theorem C6_expiry_boundary_witness :
    ((process_pending_upgrades_and_expiry cfgA6 oracleQuiet wIdle
          [("pending", .vDict [("1:2", eC6)])]).editLog = []
      ∧ ahas (dictFields ((alookup (process_pending_upgrades_and_expiry cfgA6 oracleQuiet
          wIdle [("pending", .vDict [("1:2", eC6)])]).state "pending").getD .vNone))
          "1:2" = true)
    ∧ ((process_pending_upgrades_and_expiry cfgB6 oracleQuiet wIdle
          [("pending", .vDict [("1:2", eC6)])]).editLog
            = [(pyGet eC6 "messageId", playerExpiredTitle)]
      ∧ ahas (dictFields ((alookup (process_pending_upgrades_and_expiry cfgB6 oracleQuiet
          wIdle [("pending", .vDict [("1:2", eC6)])]).state "pending").getD .vNone))
          "1:2" = false
      ∧ (process_pending_upgrades_and_expiry cfgB6 oracleQuiet wIdle
          [("pending", .vDict [("1:2", eC6)])]).ok = true) :=
  C6_expiry_boundary cfgA6 cfgB6 oracleQuiet wIdle "1:2" eC6 "https://wh" 1755302400
    (by decide) (by decide) (by decide) (by decide) (by decide) (by decide) (by decide)
    (by decide) (by decide) (fun _ => rfl) (by decide) (by decide) (by decide)

-- ---------- C4 and C5: association-list lemmas for normalization ----------

/-- Distinctness of the keys of an association list (Python dicts always
satisfy this). -/
def nodupKeys (m : List (String × PyVal)) : Prop := (m.map Prod.fst).Nodup

instance (m : List (String × PyVal)) : Decidable (nodupKeys m) := by
  unfold nodupKeys
  infer_instance

/-- The deletion condition of the `_normalize_pending_map` scan: non-dict
value, falsy `matchId` fallback (`val.get("matchId") or key` empty), or
`steamId` equal to `None`. -/
def entryCorrupt (k : String) (e : PyVal) : Prop :=
  ¬ e.isDictV = true
    ∨ ((¬ (pyGet e "matchId").truthy = true ∧ k = "")
      ∨ pyGet e "steamId" = PyVal.vNone)

instance (k : String) (e : PyVal) : Decidable (entryCorrupt k e) := by
  unfold entryCorrupt
  infer_instance

theorem alookup_cons (a : String × PyVal) (rest : List (String × PyVal))
    (j : String) :
    alookup (a :: rest) j = if a.1 = j then some a.2 else alookup rest j := rfl

theorem alookup_mem (m : List (String × PyVal)) (j : String) (v : PyVal)
    (h : alookup m j = some v) : (j, v) ∈ m := by
  induction m with
  | nil => cases h
  | cons a rest ih =>
    rw [alookup_cons] at h
    by_cases he : a.1 = j
    · rw [if_pos he] at h
      have hv : a.2 = v := by cases h; rfl
      have ha : a = (j, v) := by rw [← he, ← hv]
      rw [← ha]
      exact List.mem_cons_self a rest
    · rw [if_neg he] at h
      exact List.mem_cons_of_mem a (ih h)

theorem ahas_of_mem (m : List (String × PyVal)) (j : String) (v : PyVal)
    (h : (j, v) ∈ m) : ahas m j = true := by
  induction m with
  | nil => cases h
  | cons a rest ih =>
    rcases List.mem_cons.mp h with h1 | h2
    · show (alookup (a :: rest) j).isSome = true
      unfold alookup
      rw [← h1]
      rw [if_pos rfl]
      rfl
    · show (alookup (a :: rest) j).isSome = true
      unfold alookup
      by_cases he : a.1 = j
      · rw [if_pos he]
        rfl
      · rw [if_neg he]
        exact ih h2

theorem ahas_exists (m : List (String × PyVal)) (j : String)
    (h : ahas m j = true) : ∃ v, alookup m j = some v := by
  unfold ahas at h
  cases hl : alookup m j with
  | none => rw [hl] at h; cases h
  | some v => exact ⟨v, rfl⟩

theorem mem_keys_ahas (m : List (String × PyVal)) (j : String)
    (h : j ∈ m.map Prod.fst) : ahas m j = true := by
  rcases List.mem_map.mp h with ⟨a, ha, hfst⟩
  exact ahas_of_mem m j a.2 (by rw [← hfst]; exact ha)

theorem alookup_of_mem_nodup (m : List (String × PyVal)) (j : String) (v : PyVal)
    (hnd : nodupKeys m) (h : (j, v) ∈ m) : alookup m j = some v := by
  induction m with
  | nil => cases h
  | cons a rest ih =>
    have hnd2 : nodupKeys rest := (List.nodup_cons.mp hnd).2
    rcases List.mem_cons.mp h with h1 | h2
    · unfold alookup
      rw [← h1]
      rw [if_pos rfl]
    · unfold alookup
      by_cases he : a.1 = j
      · exfalso
        have : j ∈ rest.map Prod.fst := List.mem_map.mpr ⟨(j, v), h2, rfl⟩
        rw [← he] at this
        exact (List.nodup_cons.mp hnd).1 this
      · rw [if_neg he]
        exact ih hnd2 h2

theorem apop_sublist (m : List (String × PyVal)) (k : String) :
    List.Sublist (apop m k) m := by
  induction m with
  | nil => exact List.Sublist.refl []
  | cons a rest ih =>
    unfold apop
    by_cases he : a.1 = k
    · rw [show ((a.1, a.2) : String × PyVal) = a from rfl, if_pos he]
      exact List.sublist_cons_of_sublist a (List.Sublist.refl rest)
    · rw [show ((a.1, a.2) : String × PyVal) = a from rfl, if_neg he]
      exact List.Sublist.cons₂ a ih

theorem nodupKeys_sublist (x y : List (String × PyVal))
    (hs : List.Sublist x y) (hnd : nodupKeys y) : nodupKeys x :=
  List.Nodup.sublist (List.Sublist.map Prod.fst hs) hnd

theorem apop_lookup_ne (m : List (String × PyVal)) (j k : String) (hne : j ≠ k) :
    alookup (apop m k) j = alookup m j := by
  induction m with
  | nil => rfl
  | cons a rest ih =>
    unfold apop
    by_cases he : a.1 = k
    · rw [show ((a.1, a.2) : String × PyVal) = a from rfl, if_pos he]
      rw [alookup_cons]
      rw [if_neg (fun h => hne (h.symm.trans he))]
    · rw [show ((a.1, a.2) : String × PyVal) = a from rfl, if_neg he]
      rw [alookup_cons, alookup_cons]
      by_cases h2 : a.1 = j
      · rw [if_pos h2, if_pos h2]
      · rw [if_neg h2, if_neg h2]
        exact ih

theorem apop_lookup_self (m : List (String × PyVal)) (k : String)
    (hnd : nodupKeys m) : alookup (apop m k) k = none := by
  induction m with
  | nil => rfl
  | cons a rest ih =>
    have hnd2 : nodupKeys rest := (List.nodup_cons.mp hnd).2
    unfold apop
    by_cases he : a.1 = k
    · rw [show ((a.1, a.2) : String × PyVal) = a from rfl, if_pos he]
      cases hl : alookup rest k with
      | none => rfl
      | some v =>
        exfalso
        have : k ∈ rest.map Prod.fst := List.mem_map.mpr ⟨(k, v), alookup_mem rest k v hl, rfl⟩
        rw [← he] at this
        exact (List.nodup_cons.mp hnd).1 this
    · rw [show ((a.1, a.2) : String × PyVal) = a from rfl, if_neg he]
      unfold alookup
      rw [if_neg he]
      exact ih hnd2

theorem apop_lookup_none (m : List (String × PyVal)) (j k : String)
    (h : alookup m j = none) : alookup (apop m k) j = none := by
  induction m with
  | nil => rfl
  | cons a rest ih =>
    unfold alookup at h
    by_cases h2 : a.1 = j
    · rw [if_pos h2] at h
      cases h
    · rw [if_neg h2] at h
      unfold apop
      by_cases he : a.1 = k
      · rw [show ((a.1, a.2) : String × PyVal) = a from rfl, if_pos he]
        exact h
      · rw [show ((a.1, a.2) : String × PyVal) = a from rfl, if_neg he]
        unfold alookup
        rw [if_neg h2]
        exact ih h

theorem popAll_sublist (D : List String) (m : List (String × PyVal)) :
    List.Sublist (List.foldl apop m D) m := by
  induction D generalizing m with
  | nil => exact List.Sublist.refl m
  | cons d ds ih =>
    exact List.Sublist.trans (ih (apop m d)) (apop_sublist m d)

theorem popAll_nodup (D : List String) (m : List (String × PyVal))
    (hnd : nodupKeys m) : nodupKeys (List.foldl apop m D) :=
  nodupKeys_sublist _ _ (popAll_sublist D m) hnd

theorem popAll_lookup_notin (D : List String) (m : List (String × PyVal))
    (j : String) (h : j ∉ D) : alookup (List.foldl apop m D) j = alookup m j := by
  induction D generalizing m with
  | nil => rfl
  | cons d ds ih =>
    have hne : j ≠ d := fun he => h (he ▸ List.mem_cons_self d ds)
    have h2 : j ∉ ds := fun hm => h (List.mem_cons_of_mem d hm)
    show alookup (List.foldl apop (apop m d) ds) j = alookup m j
    rw [ih (apop m d) h2]
    exact apop_lookup_ne m j d hne

theorem popAll_lookup_none_of_none (D : List String) (m : List (String × PyVal))
    (j : String) (h : alookup m j = none) :
    alookup (List.foldl apop m D) j = none := by
  induction D generalizing m with
  | nil => exact h
  | cons d ds ih =>
    exact ih (apop m d) (apop_lookup_none m j d h)

theorem popAll_lookup_none (D : List String) (m : List (String × PyVal))
    (j : String) (hnd : nodupKeys m) (h : j ∈ D) :
    alookup (List.foldl apop m D) j = none := by
  induction D generalizing m with
  | nil => cases h
  | cons d ds ih =>
    by_cases he : j = d
    · show alookup (List.foldl apop (apop m d) ds) j = none
      exact popAll_lookup_none_of_none ds (apop m d) j
        (he ▸ apop_lookup_self m j hnd)
    · have h2 : j ∈ ds := by
        rcases List.mem_cons.mp h with h1 | h1
        · exact absurd h1 he
        · exact h1
      exact ih (apop m d) (nodupKeys_sublist _ _ (apop_sublist m d) hnd) h2

theorem popAll_ahas_false (D : List String) (m : List (String × PyVal))
    (j : String) (h : ahas m j = false) :
    ahas (List.foldl apop m D) j = false := by
  cases hl : alookup m j with
  | some v =>
    exfalso
    have : ahas m j = true := by unfold ahas; rw [hl]; rfl
    rw [this] at h
    cases h
  | none =>
    unfold ahas
    rw [popAll_lookup_none_of_none D m j hl]
    rfl

theorem alookup_append_some (x y : List (String × PyVal)) (j : String) (v : PyVal)
    (h : alookup x j = some v) : alookup (x ++ y) j = some v := by
  induction x with
  | nil => cases h
  | cons a rest ih =>
    rw [alookup_cons] at h
    rw [List.cons_append, alookup_cons]
    by_cases he : a.1 = j
    · rw [if_pos he] at h
      rw [if_pos he]
      exact h
    · rw [if_neg he] at h
      rw [if_neg he]
      exact ih h

theorem alookup_append_none (x y : List (String × PyVal)) (j : String)
    (h : alookup x j = none) : alookup (x ++ y) j = alookup y j := by
  induction x with
  | nil => rfl
  | cons a rest ih =>
    rw [alookup_cons] at h
    rw [List.cons_append, alookup_cons]
    by_cases he : a.1 = j
    · rw [if_pos he] at h
      cases h
    · rw [if_neg he] at h
      rw [if_neg he]
      exact ih h

theorem ahas_append_right (x y : List (String × PyVal)) (j : String)
    (h : ahas y j = true) : ahas (x ++ y) j = true := by
  cases hl : alookup x j with
  | some v =>
    unfold ahas
    rw [alookup_append_some x y j v hl]
    rfl
  | none =>
    unfold ahas
    rw [alookup_append_none x y j hl]
    exact h

theorem ahas_append_left (x y : List (String × PyVal)) (j : String)
    (h : ahas x j = true) : ahas (x ++ y) j = true := by
  obtain ⟨v, hl⟩ := ahas_exists x j h
  unfold ahas
  rw [alookup_append_some x y j v hl]
  rfl

theorem aset_lookup_ne (m : List (String × PyVal)) (j k : String) (v : PyVal)
    (hne : j ≠ k) : alookup (aset m k v) j = alookup m j := by
  induction m with
  | nil =>
    show alookup [(k, v)] j = none
    rw [alookup_cons, if_neg (fun h => hne h.symm)]
    rfl
  | cons a rest ih =>
    unfold aset
    by_cases he : a.1 = k
    · rw [show ((a.1, a.2) : String × PyVal) = a from rfl, if_pos he]
      rw [alookup_cons, alookup_cons]
      rw [if_neg (by rw [he]; exact fun h => hne h.symm),
        if_neg (by rw [he]; exact fun h => hne h.symm)]
    · rw [show ((a.1, a.2) : String × PyVal) = a from rfl, if_neg he]
      rw [alookup_cons, alookup_cons]
      by_cases h2 : a.1 = j
      · rw [if_pos h2, if_pos h2]
      · rw [if_neg h2, if_neg h2]
        exact ih

theorem aset_fresh_append (m : List (String × PyVal)) (k : String) (v : PyVal)
    (h : ahas m k = false) : aset m k v = m ++ [(k, v)] := by
  induction m with
  | nil => rfl
  | cons a rest ih =>
    unfold aset
    by_cases he : a.1 = k
    · exfalso
      have : ahas (a :: rest) k = true := by
        unfold ahas
        rw [alookup_cons, if_pos he]
        rfl
      rw [this] at h
      cases h
    · rw [show ((a.1, a.2) : String × PyVal) = a from rfl, if_neg he]
      have h2 : ahas rest k = false := by
        unfold ahas at h ⊢
        rw [alookup_cons, if_neg he] at h
        exact h
      rw [ih h2]
      rfl

theorem aupdate_lookup_fresh (adds m : List (String × PyVal)) (j : String)
    (h : ahas adds j = false) : alookup (aupdate m adds) j = alookup m j := by
  induction adds generalizing m with
  | nil => rfl
  | cons a rest ih =>
    have hne : j ≠ a.1 := by
      intro he
      have : ahas (a :: rest) j = true := by
        unfold ahas
        rw [alookup_cons, if_pos he.symm]
        rfl
      rw [this] at h
      cases h
    have h2 : ahas rest j = false := by
      unfold ahas at h ⊢
      rw [alookup_cons, if_neg (fun he => hne he.symm)] at h
      exact h
    show alookup (aupdate (aset m a.1 a.2) rest) j = alookup m j
    rw [ih (aset m a.1 a.2) h2]
    exact aset_lookup_ne m j a.1 a.2 hne

theorem aupdate_fresh_append (adds m : List (String × PyVal))
    (hfresh : ∀ a ∈ adds, ahas m a.1 = false) (hnd : nodupKeys adds) :
    aupdate m adds = m ++ adds := by
  induction adds generalizing m with
  | nil => simp [aupdate]
  | cons a rest ih =>
    have hnd2 : nodupKeys rest := (List.nodup_cons.mp hnd).2
    show aupdate (aset m a.1 a.2) rest = m ++ a :: rest
    rw [aset_fresh_append m a.1 a.2 (hfresh a (List.mem_cons_self a rest))]
    rw [ih (m ++ [(a.1, a.2)]) ?_ hnd2]
    · rw [List.append_assoc]
      rfl
    · intro b hb
      have hbm : ahas m b.1 = false := hfresh b (List.mem_cons_of_mem a hb)
      have hba : b.1 ≠ a.1 := by
        intro he
        have : b.1 ∈ rest.map Prod.fst := List.mem_map.mpr ⟨b, hb, rfl⟩
        rw [he] at this
        exact (List.nodup_cons.mp hnd).1 this
      cases hl : alookup (m ++ [(a.1, a.2)]) b.1 with
      | none => unfold ahas; rw [hl]; rfl
      | some v =>
        exfalso
        rw [alookup_append_none m [(a.1, a.2)] b.1 ?_] at hl
        · rw [alookup_cons, if_neg (fun h => hba h.symm)] at hl
          cases hl
        · cases hm : alookup m b.1 with
          | none => rfl
          | some w =>
            have : ahas m b.1 = true := by unfold ahas; rw [hm]; rfl
            rw [this] at hbm
            cases hbm

theorem bool_eq_false (b : Bool) (h : ¬ b = true) : b = false := by
  cases b
  · rfl
  · exact absurd rfl h

/-- The canonical composite key produced by legacy-key migration. -/
def migKey (k : String) (m : Int) : String :=
  toString (digitsToNat (strChars k) : Int) ++ ":" ++ toString m

theorem hasColon_concat (a b : String) : hasColon (a ++ ":" ++ b) = true := by
  show ((a ++ ":" ++ b).data.any fun c => c = ':') = true
  have h : (a ++ ":" ++ b).data = a.data ++ ':' :: b.data := by
    show (a.data ++ (":").data) ++ b.data = a.data ++ ':' :: b.data
    rw [show (":").data = [':'] from rfl, List.append_assoc]
    rfl
  rw [h]
  simp

theorem migKey_colon (k : String) (m : Int) : hasColon (migKey k m) = true :=
  hasColon_concat _ _

theorem hasColon_ne_empty (j : String) (h : hasColon j = true) : j ≠ "" := by
  intro he
  rw [he] at h
  exact absurd h (by decide)

theorem step_dels_extend (S : List (String × PyVal))
    (acc : List String × List (String × PyVal)) (kv : String × PyVal) :
    ∃ t t2, (normScanStep S acc kv).1 = acc.1 ++ t
      ∧ (normScanStep S acc kv).2 = acc.2 ++ t2 := by
  unfold normScanStep
  dsimp only
  repeat' split
  all_goals try exact ⟨[kv.1], [], rfl, (List.append_nil _).symm⟩
  all_goals try exact ⟨[], [], (List.append_nil _).symm, (List.append_nil _).symm⟩
  all_goals exact ⟨[kv.1], _, rfl, rfl⟩

theorem scan_dels_mono (S : List (String × PyVal)) (L : List (String × PyVal)) :
    ∀ (acc : List String × List (String × PyVal)) (j : String), j ∈ acc.1 →
    j ∈ (List.foldl (normScanStep S) acc L).1 := by
  induction L with
  | nil => intro acc j h; exact h
  | cons kv rest ih =>
    intro acc j h
    show j ∈ (List.foldl (normScanStep S) (normScanStep S acc kv) rest).1
    refine ih (normScanStep S acc kv) j ?_
    obtain ⟨t, t2, h1, _⟩ := step_dels_extend S acc kv
    rw [h1]
    exact List.mem_append_left t h

theorem scan_adds_ahas_mono (S : List (String × PyVal)) (L : List (String × PyVal)) :
    ∀ (acc : List String × List (String × PyVal)) (j : String),
    ahas acc.2 j = true → ahas (List.foldl (normScanStep S) acc L).2 j = true := by
  induction L with
  | nil => intro acc j h; exact h
  | cons kv rest ih =>
    intro acc j h
    show ahas (List.foldl (normScanStep S) (normScanStep S acc kv) rest).2 j = true
    refine ih (normScanStep S acc kv) j ?_
    obtain ⟨t, t2, _, h2⟩ := step_dels_extend S acc kv
    rw [h2]
    exact ahas_append_left _ t2 j h

theorem step_corrupt (S : List (String × PyVal))
    (acc : List String × List (String × PyVal)) (k : String) (e : PyVal)
    (hcor : entryCorrupt k e) :
    (normScanStep S acc (k, e)).1 = acc.1 ++ [k]
      ∧ (normScanStep S acc (k, e)).2 = acc.2 := by
  unfold normScanStep
  dsimp only
  by_cases hd : e.isDictV = true
  · rw [if_neg (fun hh => hh hd)]
    have hrest : (¬ (pyGet e "matchId").truthy = true ∧ k = "")
        ∨ pyGet e "steamId" = PyVal.vNone := by
      rcases hcor with h1 | h2
      · exact absurd hd h1
      · exact h2
    rw [if_pos hrest]
    exact ⟨rfl, rfl⟩
  · rw [if_pos hd]
    exact ⟨rfl, rfl⟩

theorem scan_dels_complete (S : List (String × PyVal)) (L : List (String × PyVal)) :
    ∀ (acc : List String × List (String × PyVal)) (k : String) (e : PyVal),
    (k, e) ∈ L → entryCorrupt k e →
    k ∈ (List.foldl (normScanStep S) acc L).1 := by
  induction L with
  | nil => intro acc k e h; cases h
  | cons kv rest ih =>
    intro acc k e hmem hcor
    show k ∈ (List.foldl (normScanStep S) (normScanStep S acc kv) rest).1
    rcases List.mem_cons.mp hmem with h1 | h2
    · refine scan_dels_mono S rest (normScanStep S acc kv) k ?_
      rw [← h1]
      rw [(step_corrupt S acc k e hcor).1]
      exact List.mem_append_right acc.1 (List.mem_singleton.mpr rfl)
    · exact ih (normScanStep S acc kv) k e h2 hcor

/-- Every migration the scan schedules is fresh in the live map, carries a
composite (colon) key, and holds a valid dict entry. -/
def addOk (S : List (String × PyVal)) (a : String × PyVal) : Prop :=
  ahas S a.1 = false ∧ hasColon a.1 = true ∧ a.2.isDictV = true
    ∧ pyGet a.2 "steamId" ≠ PyVal.vNone

theorem step_adds_inv (S : List (String × PyVal))
    (acc : List String × List (String × PyVal)) (kv : String × PyVal)
    (hP : ∀ a ∈ acc.2, addOk S a) (hnd : nodupKeys acc.2) :
    (∀ a ∈ (normScanStep S acc kv).2, addOk S a)
      ∧ nodupKeys (normScanStep S acc kv).2 := by
  unfold normScanStep
  dsimp only
  repeat' split
  all_goals try exact ⟨hP, hnd⟩
  rename_i hdict hbad helig hx steam heq hguard
  constructor
  · intro a ha
    rcases List.mem_append.mp ha with h1 | h2
    · exact hP a h1
    · have ha2 : a = (toString (digitsToNat (strChars kv.1) : Int) ++ ":"
          ++ toString steam, kv.2) := List.mem_singleton.mp h2
      rw [ha2]
      refine ⟨bool_eq_false _ hguard.1, hasColon_concat _ _, ?_, ?_⟩
      · by_contra hh
        exact hdict hh
      · intro hnone
        exact hbad (Or.inr hnone)
  · show ((acc.2 ++ [_]).map Prod.fst).Nodup
    rw [List.map_append]
    refine List.Nodup.append hnd (List.nodup_singleton _) ?_
    intro x hmemx hx2
    simp only [List.map_cons, List.map_nil, List.mem_singleton] at hx2
    rw [hx2] at hmemx
    exact hguard.2 (mem_keys_ahas acc.2 _ hmemx)

theorem scan_adds_inv (S : List (String × PyVal)) (L : List (String × PyVal)) :
    ∀ (acc : List String × List (String × PyVal)),
    (∀ a ∈ acc.2, addOk S a) → nodupKeys acc.2 →
    (∀ a ∈ (List.foldl (normScanStep S) acc L).2, addOk S a)
      ∧ nodupKeys (List.foldl (normScanStep S) acc L).2 := by
  induction L with
  | nil => intro acc hP hnd; exact ⟨hP, hnd⟩
  | cons kv rest ih =>
    intro acc hP hnd
    obtain ⟨hP2, hnd2⟩ := step_adds_inv S acc kv hP hnd
    exact ih (normScanStep S acc kv) hP2 hnd2

theorem step_dels_sound (S : List (String × PyVal))
    (acc : List String × List (String × PyVal)) (kv : String × PyVal)
    (j : String) (h : j ∈ (normScanStep S acc kv).1) :
    j ∈ acc.1 ∨ (j = kv.1 ∧ (entryCorrupt kv.1 kv.2 ∨ hasColon kv.1 = false)) := by
  revert h
  unfold normScanStep
  dsimp only
  repeat' split
  all_goals intro h
  all_goals try exact Or.inl h
  · rcases List.mem_append.mp h with h1 | h2
    · exact Or.inl h1
    · rename_i hdict
      exact Or.inr ⟨List.mem_singleton.mp h2, Or.inl (Or.inl hdict)⟩
  · rcases List.mem_append.mp h with h1 | h2
    · exact Or.inl h1
    · rename_i hdict hbad
      exact Or.inr ⟨List.mem_singleton.mp h2, Or.inl (Or.inr hbad)⟩
  · rcases List.mem_append.mp h with h1 | h2
    · exact Or.inl h1
    · rename_i hdict hbad helig hx steam heq hguard
      exact Or.inr ⟨List.mem_singleton.mp h2, Or.inr (bool_eq_false _ helig.1)⟩

theorem scan_dels_sound (S : List (String × PyVal)) (L : List (String × PyVal)) :
    ∀ (acc : List String × List (String × PyVal)) (j : String),
    j ∈ (List.foldl (normScanStep S) acc L).1 →
    j ∈ acc.1 ∨ ∃ e, (j, e) ∈ L ∧ (entryCorrupt j e ∨ hasColon j = false) := by
  induction L with
  | nil => intro acc j h; exact Or.inl h
  | cons kv rest ih =>
    intro acc j h
    rcases ih (normScanStep S acc kv) j h with h1 | ⟨e, hmem, hwhy⟩
    · rcases step_dels_sound S acc kv j h1 with h2 | ⟨heq, hwhy⟩
      · exact Or.inl h2
      · refine Or.inr ⟨kv.2, ?_, ?_⟩
        · rw [heq]
          rw [show ((kv.1, kv.2) : String × PyVal) = kv from rfl]
          exact List.mem_cons_self kv rest
        · rw [heq]
          exact hwhy
    · exact Or.inr ⟨e, List.mem_cons_of_mem kv hmem, hwhy⟩

theorem step_mig (S : List (String × PyVal))
    (acc : List String × List (String × PyVal)) (k : String) (e : PyVal) (m : Int)
    (hcor : ¬ entryCorrupt k e) (hcol : hasColon k = false)
    (hdig : pyIsDigit k = true) (hint : pyToInt (pyGet e "steamId") = some m) :
    (ahas S (migKey k m) = false ∧ ahas acc.2 (migKey k m) = false
      ∧ normScanStep S acc (k, e) = (acc.1 ++ [k], acc.2 ++ [(migKey k m, e)]))
    ∨ ((ahas S (migKey k m) = true ∨ ahas acc.2 (migKey k m) = true)
      ∧ normScanStep S acc (k, e) = acc) := by
  have hdict : e.isDictV = true := by
    by_contra hh
    exact hcor (Or.inl hh)
  have hrest : ¬ ((¬ (pyGet e "matchId").truthy = true ∧ k = "")
      ∨ pyGet e "steamId" = PyVal.vNone) := fun hor => hcor (Or.inr hor)
  unfold normScanStep
  dsimp only
  rw [if_neg (fun hh => hh hdict)]
  rw [if_neg hrest]
  rw [if_pos (And.intro (fun hh => by rw [hcol] at hh; cases hh) hdig)]
  rw [hint]
  dsimp only
  by_cases hS : ahas S (migKey k m) = true
  · right
    refine ⟨Or.inl hS, ?_⟩
    rw [if_neg (fun hand => hand.1 hS)]
  · by_cases hA : ahas acc.2 (migKey k m) = true
    · right
      refine ⟨Or.inr hA, ?_⟩
      rw [if_neg (fun hand => hand.2 hA)]
    · left
      refine ⟨bool_eq_false _ hS, bool_eq_false _ hA, ?_⟩
      rw [if_pos ⟨hS, hA⟩]
      rfl

theorem scan_migration_blocked (S : List (String × PyVal))
    (L : List (String × PyVal)) :
    ∀ (acc : List String × List (String × PyVal)) (k : String) (e : PyVal)
      (m : Int),
    (k, e) ∈ L → ¬ entryCorrupt k e → hasColon k = false → pyIsDigit k = true →
    pyToInt (pyGet e "steamId") = some m →
    k ∉ (List.foldl (normScanStep S) acc L).1 →
    ahas S (migKey k m) = true
      ∨ ahas (List.foldl (normScanStep S) acc L).2 (migKey k m) = true := by
  induction L with
  | nil => intro acc k e m h; cases h
  | cons kv rest ih =>
    intro acc k e m hmem hcor hcol hdig hint hnotin
    rcases List.mem_cons.mp hmem with h1 | h2
    · have hkv : normScanStep S acc kv = normScanStep S acc (k, e) := by rw [← h1]
      rcases step_mig S acc k e m hcor hcol hdig hint with ⟨_, _, heq⟩ | ⟨hdisj, heq⟩
      · exfalso
        refine hnotin ?_
        show k ∈ (List.foldl (normScanStep S) (normScanStep S acc kv) rest).1
        refine scan_dels_mono S rest (normScanStep S acc kv) k ?_
        rw [hkv, heq]
        exact List.mem_append_right acc.1 (List.mem_singleton.mpr rfl)
      · rcases hdisj with hL | hR
        · exact Or.inl hL
        · right
          show ahas (List.foldl (normScanStep S) (normScanStep S acc kv) rest).2
            (migKey k m) = true
          refine scan_adds_ahas_mono S rest (normScanStep S acc kv) (migKey k m) ?_
          rw [hkv, heq]
          exact hR
    · exact ih (normScanStep S acc kv) k e m h2 hcor hcol hdig hint hnotin

theorem step_quiet (T : List (String × PyVal))
    (acc : List String × List (String × PyVal)) (k : String) (e : PyVal)
    (hcor : ¬ entryCorrupt k e)
    (hq : hasColon k = true ∨ pyIsDigit k = false
      ∨ pyToInt (pyGet e "steamId") = none
      ∨ ∃ m, pyToInt (pyGet e "steamId") = some m ∧ ahas T (migKey k m) = true) :
    normScanStep T acc (k, e) = acc := by
  have hdict : e.isDictV = true := by
    by_contra hh
    exact hcor (Or.inl hh)
  have hrest : ¬ ((¬ (pyGet e "matchId").truthy = true ∧ k = "")
      ∨ pyGet e "steamId" = PyVal.vNone) := fun hor => hcor (Or.inr hor)
  unfold normScanStep
  dsimp only
  rw [if_neg (fun hh => hh hdict)]
  rw [if_neg hrest]
  rcases hq with h | h | h | ⟨m, hm, hT⟩
  · rw [if_neg (fun hand => hand.1 h)]
  · rw [if_neg (fun hand => by rw [h] at hand; exact absurd hand.2 (by decide))]
  · by_cases helig : ¬ hasColon k = true ∧ pyIsDigit k = true
    · rw [if_pos helig, h]
    · rw [if_neg helig]
  · by_cases helig : ¬ hasColon k = true ∧ pyIsDigit k = true
    · rw [if_pos helig, hm]
      dsimp only
      rw [if_neg (fun hand => hand.1 hT)]
    · rw [if_neg helig]

theorem foldl_quiet (T : List (String × PyVal)) :
    ∀ (L : List (String × PyVal)) (acc : List String × List (String × PyVal)),
    (∀ kv ∈ L, ∀ a, normScanStep T a kv = a) →
    List.foldl (normScanStep T) acc L = acc := by
  intro L
  induction L with
  | nil => intro acc h; rfl
  | cons kv rest ih =>
    intro acc h
    show List.foldl (normScanStep T) (normScanStep T acc kv) rest = acc
    rw [h kv (List.mem_cons_self kv rest) acc]
    exact ih acc (fun x hx a => h x (List.mem_cons_of_mem kv hx) a)

theorem normalize_id_of_scan_nil (L : List (String × PyVal))
    (h : List.foldl (normScanStep L) ([], []) L = ([], [])) :
    _normalize_pending_map L = L := by
  unfold _normalize_pending_map
  dsimp only
  rw [h]
  rfl

/-- C4 counterexample: an entry missing `matchId`, `messageId` and
`webhookBase` (it has only a `steamId`) survives `_normalize_pending_map`
untouched, so "after normalization no such entry remains" is false — the
scan only checks dict-ness, the matchId-or-key fallback and `steamId`. -/
theorem C4_counterexample :
    _normalize_pending_map [("1:2", .vDict [("steamId", .vInt 1)])]
        = [("1:2", .vDict [("steamId", .vInt 1)])]
      ∧ (pyGet (.vDict [("steamId", .vInt 1)]) "matchId").truthy = false
      ∧ (pyGet (.vDict [("steamId", .vInt 1)]) "messageId").truthy = false
      ∧ (pyGet (.vDict [("steamId", .vInt 1)]) "webhookBase").truthy = false := by
  refine ⟨?_, ?_, ?_, ?_⟩ <;> decide

/-- C4 as amended: normalization drops exactly the scan's notion of corrupt —
non-dict values, entries whose `matchId`-or-key fallback is falsy, and
entries with `steamId` `None` — without touching `messageId` or
`webhookBase`. After normalization no corrupt entry remains (its key looks
up to nothing), and the pass never crashes on an entry missing `messageId`:
the per-entry guard skips it, leaving the state unchanged. -/
theorem C4_corrupt_drops :
    (∀ (S : List (String × PyVal)) (k : String) (e : PyVal),
      nodupKeys S → (k, e) ∈ S → entryCorrupt k e →
      alookup (_normalize_pending_map S) k = none)
    ∧ (∀ (cfg : Cfg) (oracle : Oracle) (maxCh : Int) (st : PassSt) (k : String)
        (e : PyVal), (pyGet e "messageId").truthy = false →
      playerStep cfg oracle maxCh st (k, e) = (st, false)) := by
  constructor
  · intro S k e hnd hmem hcor
    obtain ⟨D, A, hDA⟩ : ∃ D A, List.foldl (normScanStep S) ([], []) S = (D, A) :=
      ⟨_, _, rfl⟩
    have hkD : k ∈ D := by
      have hh := scan_dels_complete S S ([], []) k e hmem hcor
      rw [hDA] at hh
      exact hh
    have hAinv := scan_adds_inv S S ([], []) (fun a ha => absurd ha
      (List.not_mem_nil a)) List.nodup_nil
    rw [hDA] at hAinv
    have hAk : ahas A k = false := by
      cases hv : ahas A k
      · rfl
      · obtain ⟨v, hl⟩ := ahas_exists A k hv
        have hmemA : (k, v) ∈ A := alookup_mem A k v hl
        have hfresh : ahas S k = false := (hAinv.1 (k, v) hmemA).1
        have hSk : ahas S k = true := ahas_of_mem S k e hmem
        rw [hSk] at hfresh
        cases hfresh
    show alookup (_normalize_pending_map S) k = none
    unfold _normalize_pending_map
    dsimp only
    rw [hDA]
    show alookup (aupdate (List.foldl apop S D) A) k = none
    rw [aupdate_lookup_fresh A (List.foldl apop S D) k hAk]
    exact popAll_lookup_none D S k hnd hkD
  · intro cfg oracle maxCh st k e hmsg
    unfold playerStep
    dsimp only
    by_cases hd : e.isDictV = true
    · rw [if_neg (fun hh => hh hd)]
      rw [if_pos (Or.inr (Or.inr (Or.inl
        (show ¬ (pyGet e "messageId").truthy = true by rw [hmsg]; exact fun hh => by cases hh))))]
    · rw [if_pos hd]

/-- The corrupt witness store: a non-dict entry, an entry with `steamId`
`None`, and a dict entry that only has a `steamId`. -/
def sC4 : List (String × PyVal) := [("bad", .vStr "junk"),
  ("77", .vDict [("matchId", .vInt 77)]),
  ("1:2", .vDict [("steamId", .vInt 1)])]

/-- A pass state used to exercise the skip of a `messageId`-less entry. -/
def stC4 : PassSt :=
  { pending := [("1:2", .vDict [("steamId", .vInt 1)])],
    state := [("pending", .vDict [("1:2", .vDict [("steamId", .vInt 1)])])],
    w := wIdle, checksUsed := 0, fetchCount := 0, editCount := 0, editLog := [],
    polledKeys := [] }

theorem C4_corrupt_drops_witness :
    (alookup (_normalize_pending_map sC4) "bad" = none
      ∧ alookup (_normalize_pending_map sC4) "77" = none)
    ∧ playerStep cfgW oracleQuiet 8 stC4 ("1:2", .vDict [("steamId", .vInt 1)])
        = (stC4, false) :=
  ⟨⟨C4_corrupt_drops.1 sC4 "bad" (.vStr "junk") (by decide) (by decide) (by decide),
    C4_corrupt_drops.1 sC4 "77" (.vDict [("matchId", .vInt 77)]) (by decide)
      (by decide) (by decide)⟩,
    C4_corrupt_drops.2 cfgW oracleQuiet 8 stC4 "1:2" (.vDict [("steamId", .vInt 1)])
      (by decide)⟩

/-- C5 counterexample: normalization is NOT idempotent in general. A legacy
numeric key whose composite target is occupied by a corrupt entry is kept on
the first run (the live-map membership check sees the occupant) while the
occupant is deleted; the second run then migrates the legacy key, so the two
results differ. -/
theorem C5_counterexample :
    _normalize_pending_map (_normalize_pending_map
        [("123", .vDict [("steamId", .vInt 456)]), ("123:456", .vStr "junk")])
      ≠ _normalize_pending_map
        [("123", .vDict [("steamId", .vInt 456)]), ("123:456", .vStr "junk")] := by
  decide

/-- C5 as amended: normalization is idempotent on every store with distinct
keys in which each composite-keyed (colon) entry is a dict with a non-`None`
`steamId` — in particular whenever no corrupt entry occupies a legacy key's
migration target. The general claim fails only through that interaction
(see the counterexample). -/
theorem C5_normalization_idempotent (S : List (String × PyVal))
    (hnd : nodupKeys S)
    (H : ∀ a ∈ S, hasColon a.1 = true →
      a.2.isDictV = true ∧ pyGet a.2 "steamId" ≠ PyVal.vNone) :
    _normalize_pending_map (_normalize_pending_map S) = _normalize_pending_map S := by
  obtain ⟨D, A, hDA⟩ : ∃ D A, List.foldl (normScanStep S) ([], []) S = (D, A) :=
    ⟨_, _, rfl⟩
  have hAinv := scan_adds_inv S S ([], []) (fun a ha => absurd ha
    (List.not_mem_nil a)) List.nodup_nil
  rw [hDA] at hAinv
  have hA : ∀ a ∈ A, addOk S a := hAinv.1
  have hAnd : nodupKeys A := hAinv.2
  have hN : _normalize_pending_map S = List.foldl apop S D ++ A := by
    unfold _normalize_pending_map
    dsimp only
    rw [hDA]
    show aupdate (List.foldl apop S D) A = _
    exact aupdate_fresh_append A (List.foldl apop S D)
      (fun a ha => popAll_ahas_false D S a.1 ((hA a ha).1)) hAnd
  apply normalize_id_of_scan_nil
  apply foldl_quiet
  intro kv hkv acc
  obtain ⟨k, e⟩ := kv
  rw [hN] at hkv
  rcases List.mem_append.mp hkv with hpop | hadd
  · have hmemS : (k, e) ∈ S := (popAll_sublist D S).subset hpop
    have hlookupPop : alookup (List.foldl apop S D) k = some e :=
      alookup_of_mem_nodup _ k e (popAll_nodup D S hnd) hpop
    have hkD : k ∉ D := by
      intro hin
      rw [popAll_lookup_none D S k hnd hin] at hlookupPop
      cases hlookupPop
    have hcor : ¬ entryCorrupt k e := by
      intro hc
      refine hkD ?_
      have hh := scan_dels_complete S S ([], []) k e hmemS hc
      rw [hDA] at hh
      exact hh
    refine step_quiet _ acc k e hcor ?_
    by_cases hcol : hasColon k = true
    · exact Or.inl hcol
    · by_cases hdig : pyIsDigit k = true
      · cases hint : pyToInt (pyGet e "steamId") with
        | none => exact Or.inr (Or.inr (Or.inl rfl))
        | some m =>
          refine Or.inr (Or.inr (Or.inr ⟨m, rfl, ?_⟩))
          have hnotin : k ∉ (List.foldl (normScanStep S) ([], []) S).1 := by
            rw [hDA]
            exact hkD
          have hblock := scan_migration_blocked S S ([], []) k e m hmemS hcor
            (bool_eq_false _ hcol) hdig hint hnotin
          rw [hDA] at hblock
          rw [hN]
          rcases hblock with hS | hA2
          · obtain ⟨w, hlw⟩ := ahas_exists S (migKey k m) hS
            have hmemw : (migKey k m, w) ∈ S := alookup_mem S _ w hlw
            have hHw := H (migKey k m, w) hmemw (migKey_colon k m)
            have hwnd : migKey k m ∉ D := by
              intro hin
              have hsound := scan_dels_sound S S ([], []) (migKey k m)
                (by rw [hDA]; exact hin)
              rcases hsound with h0 | ⟨e2, hmem2, hwhy⟩
              · exact absurd h0 (List.not_mem_nil _)
              · have hl2 := alookup_of_mem_nodup S _ e2 hnd hmem2
                rw [hlw] at hl2
                have he2 : e2 = w := (Option.some.inj hl2).symm
                rw [he2] at hwhy
                rcases hwhy with hcor2 | hnc
                · rcases hcor2 with h1 | h2 | h3
                  · exact h1 hHw.1
                  · exact (hasColon_ne_empty _ (migKey_colon k m)) h2.2
                  · exact hHw.2 h3
                · rw [migKey_colon k m] at hnc
                  cases hnc
            have hlpop : alookup (List.foldl apop S D) (migKey k m) = some w := by
              rw [popAll_lookup_notin D S _ hwnd]
              exact hlw
            refine ahas_append_left _ A _ ?_
            unfold ahas
            rw [hlpop]
            rfl
          · exact ahas_append_right _ A _ hA2
      · exact Or.inr (Or.inl (bool_eq_false _ hdig))
  · have haddOk := hA (k, e) hadd
    refine step_quiet _ acc k e ?_ (Or.inl haddOk.2.1)
    intro hc
    rcases hc with h1 | h2 | h3
    · exact h1 haddOk.2.2.1
    · exact (hasColon_ne_empty _ haddOk.2.1) h2.2
    · exact haddOk.2.2.2 h3

/-- A store with one composite-keyed valid entry and one legacy key that
migrates on the first normalization. -/
def sC5 : List (String × PyVal) := [("7:8", .vDict [("steamId", .vInt 8)]),
  ("123", .vDict [("matchId", .vInt 123), ("steamId", .vInt 456)])]

theorem C5_normalization_idempotent_witness :
    nodupKeys sC5
      ∧ _normalize_pending_map (_normalize_pending_map sC5)
        = _normalize_pending_map sC5 :=
  ⟨by decide, C5_normalization_idempotent sC5 (by decide) (by decide)⟩

-- ---------- C7: poll budget, oldest-first order, lastCheckedAt ----------

/-- An entry that reaches the budgeted upgrade attempt: a well-formed dict
that is not due for expiry, is recheck-eligible now, and has an
int-convertible `matchId`. -/
def readyEntry (cfg : Cfg) (k : String) (e : PyVal) : Prop :=
  e.isDictV = true
    ∧ (pyGet e "matchId").truthy = true
    ∧ (pyGet e "steamId").truthy = true
    ∧ (pyGet e "messageId").truthy = true
    ∧ (pyGet e "webhookBase").truthy = true
    ∧ ¬ (Q.lt (Q.ofInt 0) (_posted_at_epoch e) = true
        ∧ Q.le (Q.ofInt (_entry_expiry_seconds e cfg.envExpiryRaw))
          (Q.sub cfg.nowEpoch (_posted_at_epoch e)) = true)
    ∧ _should_recheck_now e (pyStr (pyGet e "matchId") ++ ":"
        ++ pyStr (pyGet e "steamId")) cfg.nowEpoch = true
    ∧ (pyToInt (pyGet e "matchId")).isSome = true

instance (cfg : Cfg) (k : String) (e : PyVal) : Decidable (readyEntry cfg k e) := by
  unfold readyEntry
  infer_instance

/-- The stamped copy of an entry after an attempted poll. -/
def stampChecked (cfg : Cfg) (kv : String × PyVal) : String × PyVal :=
  (kv.1, dictSetField kv.2 "lastCheckedAt" (.vStr cfg.nowIsoStr))

/-- Within budget, a ready entry whose fetch comes back `None` consumes one
check, is stamped with `lastCheckedAt`, and stays pending. -/
theorem playerStep_ready_poll (cfg : Cfg) (oracle : Oracle) (maxCh : Int)
    (st : PassSt) (k : String) (e : PyVal)
    (hr : readyEntry cfg k e)
    (hnr : oracle.fetchO st.fetchCount = PyVal.vNone)
    (hbud : st.checksUsed < maxCh) :
    playerStep cfg oracle maxCh st (k, e)
      = ({ st with
           pending := aset st.pending k
             (dictSetField e "lastCheckedAt" (.vStr cfg.nowIsoStr)),
           w := wsleep st.w ⟨1, 5⟩,
           checksUsed := st.checksUsed + 1,
           fetchCount := st.fetchCount + 1,
           polledKeys := st.polledKeys ++ [k] }, false) := by
  obtain ⟨hd, hm, hs, hmsg, hwb, hexp, hrc, hint⟩ := hr
  obtain ⟨mid, hmid⟩ := Option.isSome_iff_exists.mp hint
  have hEne : ¬ (_entry_expiry_seconds e cfg.envExpiryRaw = 0) := by
    have := entry_expiry_ge e cfg.envExpiryRaw
    omega
  unfold playerStep
  dsimp only
  rw [if_pos hwb]
  rw [if_neg (fun hh => hh hd)]
  rw [if_neg (fun hor => by
    rcases hor with h | h | h | h
    · exact h hm
    · exact h hs
    · exact h hmsg
    · exact h hwb)]
  rw [if_neg hEne]
  rw [if_neg hexp]
  rw [if_neg (fun hh => hh hrc)]
  rw [if_neg (by omega)]
  rw [hmid]
  unfold pollWith recordPoll
  dsimp only
  rw [hnr]
  rw [if_pos (by decide)]

/-- With the budget exhausted, a ready entry is skipped without any change. -/
theorem playerStep_budget_skip (cfg : Cfg) (oracle : Oracle) (maxCh : Int)
    (st : PassSt) (k : String) (e : PyVal)
    (hr : readyEntry cfg k e)
    (hbud : ¬ st.checksUsed < maxCh) :
    playerStep cfg oracle maxCh st (k, e) = (st, false) := by
  obtain ⟨hd, hm, hs, hmsg, hwb, hexp, hrc, hint⟩ := hr
  have hEne : ¬ (_entry_expiry_seconds e cfg.envExpiryRaw = 0) := by
    have := entry_expiry_ge e cfg.envExpiryRaw
    omega
  unfold playerStep
  dsimp only
  rw [if_pos hwb]
  rw [if_neg (fun hh => hh hd)]
  rw [if_neg (fun hor => by
    rcases hor with h | h | h | h
    · exact h hm
    · exact h hs
    · exact h hmsg
    · exact h hwb)]
  rw [if_neg hEne]
  rw [if_neg hexp]
  rw [if_neg (fun hh => hh hrc)]
  rw [if_pos (by omega)]

theorem ahas_cons_false (a : String × PyVal) (P : List (String × PyVal))
    (k : String) (h : ahas (a :: P) k = false) : a.1 ≠ k ∧ ahas P k = false := by
  unfold ahas at h ⊢
  rw [alookup_cons] at h
  by_cases he : a.1 = k
  · rw [if_pos he] at h
    cases h
  · rw [if_neg he] at h
    exact ⟨he, h⟩

theorem ahas_false_none (P : List (String × PyVal)) (j : String)
    (h : ahas P j = false) : alookup P j = none := by
  cases hl : alookup P j with
  | none => rfl
  | some v =>
    exfalso
    have : ahas P j = true := by unfold ahas; rw [hl]; rfl
    rw [this] at h
    cases h

theorem ahas_append_singleton_false (P : List (String × PyVal)) (k j : String)
    (v : PyVal) (hP : ahas P j = false) (hne : j ≠ k) :
    ahas (P ++ [(k, v)]) j = false := by
  unfold ahas
  rw [alookup_append_none P _ j (ahas_false_none P j hP)]
  rw [alookup_cons, if_neg (fun h => hne h.symm)]
  rfl

theorem aset_append_fresh (P : List (String × PyVal)) (k : String) (e v : PyVal)
    (rest : List (String × PyVal)) (h : ahas P k = false) :
    aset (P ++ (k, e) :: rest) k v = P ++ (k, v) :: rest := by
  induction P with
  | nil =>
    show aset ((k, e) :: rest) k v = (k, v) :: rest
    unfold aset
    rw [if_pos rfl]
  | cons a P ih =>
    obtain ⟨hne, hP⟩ := ahas_cons_false a P k h
    show aset (a :: (P ++ (k, e) :: rest)) k v = a :: (P ++ (k, v) :: rest)
    unfold aset
    rw [show ((a.1, a.2) : String × PyVal) = a from rfl, if_neg hne]
    rw [ih hP]

/-- The whole walk over ready entries with a quiet stats source: polls go to
the first `min(budget, length)` entries in order, each polled entry is
stamped in place, every other entry and all other bookkeeping are left
alone, and the walk never aborts. -/
theorem runEntries_ready_inv (cfg : Cfg) (oracle : Oracle) (maxCh : Int)
    (hnr : ∀ n, oracle.fetchO n = PyVal.vNone) :
    ∀ (L : List (String × PyVal)) (st : PassSt) (P : List (String × PyVal)),
    st.pending = P ++ L →
    (∀ kv ∈ L, readyEntry cfg kv.1 kv.2) →
    (∀ kv ∈ L, ahas P kv.1 = false) →
    nodupKeys L →
    ∃ stq, runEntries (playerStep cfg oracle maxCh) st L = (stq, false)
      ∧ stq.pending = P ++ (L.take ((maxCh - st.checksUsed).toNat ⊓ L.length)).map
          (stampChecked cfg) ++ L.drop ((maxCh - st.checksUsed).toNat ⊓ L.length)
      ∧ stq.state = st.state
      ∧ stq.checksUsed = st.checksUsed
          + (((maxCh - st.checksUsed).toNat ⊓ L.length : Nat) : Int)
      ∧ stq.fetchCount = st.fetchCount + ((maxCh - st.checksUsed).toNat ⊓ L.length)
      ∧ stq.editCount = st.editCount
      ∧ stq.editLog = st.editLog
      ∧ stq.polledKeys = st.polledKeys
          ++ (L.take ((maxCh - st.checksUsed).toNat ⊓ L.length)).map Prod.fst := by
  intro L
  induction L with
  | nil =>
    intro st P hpend hready hfresh hnd
    refine ⟨st, rfl, ?_, rfl, ?_, ?_, rfl, rfl, ?_⟩
    · simp [hpend]
    · simp
    · simp
    · simp
  | cons kv rest ih =>
    intro st P hpend hready hfresh hnd
    obtain ⟨k, e⟩ := kv
    have hrhead : readyEntry cfg k e := hready (k, e) (List.mem_cons_self _ _)
    have hndrest : nodupKeys rest := (List.nodup_cons.mp hnd).2
    have hknotin : k ∉ rest.map Prod.fst := (List.nodup_cons.mp hnd).1
    by_cases hbud : st.checksUsed < maxCh
    · have hstep := playerStep_ready_poll cfg oracle maxCh st k e hrhead
        (hnr st.fetchCount) hbud
      rw [runEntries_cons_cont _ _ _ _ _ hstep]
      have hpend1 : (aset st.pending k
            (dictSetField e "lastCheckedAt" (.vStr cfg.nowIsoStr)))
          = (P ++ [stampChecked cfg (k, e)]) ++ rest := by
        rw [hpend]
        rw [aset_append_fresh P k e _ rest (hfresh (k, e) (List.mem_cons_self _ _))]
        rw [List.append_assoc]
        rfl
      obtain ⟨stq, hrunq, hpq, hsq, hcq, hfq, heq, hlq, hkq⟩ :=
        ih ({ st with
              pending := aset st.pending k
                (dictSetField e "lastCheckedAt" (.vStr cfg.nowIsoStr)),
              w := wsleep st.w ⟨1, 5⟩,
              checksUsed := st.checksUsed + 1,
              fetchCount := st.fetchCount + 1,
              polledKeys := st.polledKeys ++ [k] })
          (P ++ [stampChecked cfg (k, e)]) hpend1
          (fun kv2 h2 => hready kv2 (List.mem_cons_of_mem _ h2))
          (fun kv2 h2 => ahas_append_singleton_false P k kv2.1 _
            (hfresh kv2 (List.mem_cons_of_mem _ h2))
            (fun he2 => hknotin (he2 ▸ List.mem_map.mpr ⟨kv2, h2, rfl⟩)))
          hndrest
      dsimp only at hpq hsq hcq hfq heq hlq hkq
      have hnn : (maxCh - st.checksUsed).toNat ⊓ ((k, e) :: rest).length
          = ((maxCh - (st.checksUsed + 1)).toNat ⊓ rest.length) + 1 := by
        simp only [List.length_cons]
        omega
      refine ⟨stq, hrunq, ?_, hsq, ?_, ?_, heq, hlq, ?_⟩
      · rw [hnn, List.take_succ_cons, List.drop_succ_cons, List.map_cons, hpq]
        simp
      · rw [hcq, hnn]
        push_cast
        ring
      · rw [hfq, hnn]
        omega
      · rw [hkq, hnn, List.take_succ_cons, List.map_cons, List.append_assoc]
        rfl
    · have hstep := playerStep_budget_skip cfg oracle maxCh st k e hrhead hbud
      rw [runEntries_cons_cont _ _ _ _ _ hstep]
      have hz : (maxCh - st.checksUsed).toNat = 0 := by omega
      have hpend1 : st.pending = (P ++ [(k, e)]) ++ rest := by
        rw [hpend, List.append_assoc]
        rfl
      obtain ⟨stq, hrunq, hpq, hsq, hcq, hfq, heq, hlq, hkq⟩ :=
        ih st (P ++ [(k, e)]) hpend1
          (fun kv2 h2 => hready kv2 (List.mem_cons_of_mem _ h2))
          (fun kv2 h2 => ahas_append_singleton_false P k kv2.1 _
            (hfresh kv2 (List.mem_cons_of_mem _ h2))
            (fun he2 => hknotin (he2 ▸ List.mem_map.mpr ⟨kv2, h2, rfl⟩)))
          hndrest
      refine ⟨stq, hrunq, ?_, hsq, ?_, ?_, heq, hlq, ?_⟩
      · rw [hpq, hz]
        simp
      · rw [hcq, hz]
        simp
      · rw [hfq, hz]
        simp
      · rw [hkq, hz]
        simp

/-- C7: with N ready (recheck-eligible, non-expired, well-formed) entries and
a poll budget K, one pass issues exactly `min K N` upstream polls — so exactly
K when K < N — to the first `min K N` entries of the sorted oldest-first
order; every polled entry is stamped with `lastCheckedAt` in place even
though its poll found nothing, the remaining entries are left untouched
(skipped, not failed), no edit is issued and the pass reports success. -/
theorem C7_poll_budget_oldest_first (cfg : Cfg) (oracle : Oracle) (w0 : WState)
    (pm : List (String × PyVal))
    (hpm : pm ≠ [])
    (hnorm : _normalize_pending_map pm = pm)
    (hsort : sortByPosted pm = pm)
    (hnd : nodupKeys pm)
    (hready : ∀ kv ∈ pm, readyEntry cfg kv.1 kv.2)
    (hnr : ∀ n, oracle.fetchO n = PyVal.vNone) :
    (process_pending_upgrades_and_expiry cfg oracle w0
        [("pending", .vDict pm)]).ok = true
      ∧ (process_pending_upgrades_and_expiry cfg oracle w0
          [("pending", .vDict pm)]).fetchCount
        = (_env_max_checks_per_run cfg.envMaxChecksRaw).toNat ⊓ pm.length
      ∧ (process_pending_upgrades_and_expiry cfg oracle w0
          [("pending", .vDict pm)]).polledKeys
        = (pm.take ((_env_max_checks_per_run cfg.envMaxChecksRaw).toNat
            ⊓ pm.length)).map Prod.fst
      ∧ (process_pending_upgrades_and_expiry cfg oracle w0
          [("pending", .vDict pm)]).editLog = []
      ∧ alookup (process_pending_upgrades_and_expiry cfg oracle w0
          [("pending", .vDict pm)]).state "pending"
        = some (.vDict ((pm.take ((_env_max_checks_per_run cfg.envMaxChecksRaw).toNat
              ⊓ pm.length)).map (stampChecked cfg)
            ++ pm.drop ((_env_max_checks_per_run cfg.envMaxChecksRaw).toNat
              ⊓ pm.length))) := by
  have heq := process_eq_passFrom cfg oracle w0 [("pending", .vDict pm)] pm
    (by rw [alookup_cons]; rw [if_pos rfl]) hpm
  rw [hnorm] at heq
  obtain ⟨stq, hrun, hpq, hsq, hcq, hfq, heqc, hlq, hkq⟩ :=
    runEntries_ready_inv cfg oracle (_env_max_checks_per_run cfg.envMaxChecksRaw)
      hnr pm
      { pending := pm, state := [("pending", .vDict pm)], w := w0,
        checksUsed := 0, fetchCount := 0, editCount := 0, editLog := [],
        polledKeys := [] }
      [] (List.nil_append pm).symm hready (fun kv h => rfl) hnd
  dsimp only at hpq hsq hcq hfq heqc hlq hkq
  have h00 : (_env_max_checks_per_run cfg.envMaxChecksRaw - 0 : Int)
      = _env_max_checks_per_run cfg.envMaxChecksRaw := by omega
  rw [h00] at hpq hfq hkq
  have hrun2 : runEntries (playerStep cfg oracle
        (_env_max_checks_per_run cfg.envMaxChecksRaw))
      { pending := pm, state := [("pending", .vDict pm)], w := w0,
        checksUsed := 0, fetchCount := 0, editCount := 0, editLog := [],
        polledKeys := [] }
      (sortByPosted ({ pending := pm, state := [("pending", .vDict pm)],
                       w := w0, checksUsed := 0, fetchCount := 0,
                       editCount := 0, editLog := [],
                       polledKeys := [] } : PassSt).pending) = (stq, false) := by
    show runEntries _ _ (sortByPosted pm) = _
    rw [hsort]
    exact hrun
  have hpass := passFrom_complete cfg oracle
    (_env_max_checks_per_run cfg.envMaxChecksRaw) true _ stq hrun2
    (by rw [hsq]; rfl) (by rw [hsq]; rfl)
  rw [heq, hpass]
  refine ⟨rfl, ?_, ?_, ?_, ?_⟩
  · show stq.fetchCount = _
    rw [hfq]
    omega
  · show stq.polledKeys = _
    rw [hkq]
    exact List.nil_append _
  · exact hlq
  · show alookup (aset stq.state "pending" (.vDict stq.pending)) "pending" = _
    rw [alookup_aset_self, hpq]
    rfl

/-- A ready witness entry: posted shortly before the fixture clock, never
checked, with full routing fields. -/
def eC7 (mid posted : Int) : PyVal := .vDict [("matchId", .vInt mid),
  ("steamId", .vInt 1), ("messageId", .vStr "m"),
  ("webhookBase", .vStr "https://wh"), ("postedAt", .vFloat ⟨posted, 1⟩)]

/-- Three ready entries in ascending `postedAt` order. -/
def pm7 : List (String × PyVal) := [("10:1", eC7 10 1700), ("11:1", eC7 11 1800),
  ("12:1", eC7 12 1850)]

/-- The fixture configuration with the per-run poll budget overridden to 2. -/
def cfg7 : Cfg := { cfgW with envMaxChecksRaw := "2" }

theorem C7_poll_budget_oldest_first_witness :
    (process_pending_upgrades_and_expiry cfg7 oracleQuiet wIdle
        [("pending", .vDict pm7)]).ok = true
      ∧ (process_pending_upgrades_and_expiry cfg7 oracleQuiet wIdle
          [("pending", .vDict pm7)]).fetchCount = 2
      ∧ (process_pending_upgrades_and_expiry cfg7 oracleQuiet wIdle
          [("pending", .vDict pm7)]).polledKeys = ["10:1", "11:1"]
      ∧ (process_pending_upgrades_and_expiry cfg7 oracleQuiet wIdle
          [("pending", .vDict pm7)]).editLog = [] := by
  have h := C7_poll_budget_oldest_first cfg7 oracleQuiet wIdle pm7
    (by decide) (by decide) (by decide) (by decide) (by decide) (fun n => rfl)
  refine ⟨h.1, ?_, ?_, h.2.2.2.1⟩
  · rw [h.2.1]
    decide
  · rw [h.2.2.1]
    decide
